import Mathlib

/-!
Verification development for the game-audio read-only file tools
(`src/extensions/game-audio/src/audio-tools.ts`).

The TypeScript source is shallowly embedded as follows.

* Absolute filesystem paths are modelled as `List String`: the list of path
  segments of a normalized absolute POSIX path (`["r", "f.txt"]` stands for
  `/r/f.txt`).  The walker, the reader and the read tool only ever handle
  such normalized absolute paths (roots go through `toAbsPath`/`path.normalize`
  before use), so home expansion (`expandHome`, `toAbsPath`) is out of scope of
  the segment model and root paths enter the model already absolute.
* The filesystem is a finite association list from canonical (fully
  symlink-resolved) absolute paths to nodes; a node is a directory, a regular
  file (its byte contents), or a symbolic link to an absolute target path.
  `realpathAux` resolves a path against that map exactly the way
  `fs.realpath` does, with an explicit fuel bound for symlink loops.
  `readdir` lists an entry per canonical child and reports the lstat-kind of
  the child itself (Node's `Dirent` semantics); `statNode` follows symlinks.
* UTF-8 decoding of bytes (`Buffer.prototype.toString("utf8")`) is an
  abstract field `FSys.decode` of the filesystem model.
* JavaScript numbers used for configuration (`maxFileBytes`, `maxHits`,
  `maxBytes`) are modelled as integers.
* `RegExp` is modelled for metacharacter-free (literal) patterns only, which
  is enough for every claim touching regex mode; crucially the model keeps
  the `lastIndex` state of the `g`-flagged regex that `makeMatcher` builds,
  because `RegExp.prototype.test` is stateful under the `g` flag.
-/

set_option maxRecDepth 4000

/-! ## JavaScript string helpers

All string primitives are modelled by structural recursion over the
character list of the string, so that every definition in this file
evaluates inside the kernel. -/

/-- `hay.includes(needle)` on JavaScript strings: literal substring test. -/
def jsStringIncludes (hay needle : String) : Bool :=
  (List.range (hay.toList.length + 1)).any (fun j => needle.toList.isPrefixOf (hay.toList.drop j))

/-- Split a character list at every occurrence of the character `c`
(`String.prototype.split` with a single-character separator). -/
def splitOnChar (c : Char) : List Char → List (List Char)
  | [] => [[]]
  | x :: xs =>
    let r := splitOnChar c xs
    if x = c then [] :: r
    else
      match r with
      | [] => [[x]]
      | h :: t => (x :: h) :: t

/-- `s.split(c)` as a list of strings. -/
def jsSplit (s : String) (c : Char) : List String :=
  (splitOnChar c s.toList).map String.mk

/-- `s.toLowerCase()`. -/
def jsToLower (s : String) : String :=
  String.mk (s.toList.map Char.toLower)

/-- A JavaScript whitespace character (the ones relevant to this model). -/
def jsIsWS (c : Char) : Bool :=
  c = ' ' ∨ c = '\t' ∨ c = '\n' ∨ c = '\r'

/-- `s.trim()`. -/
def jsTrim (s : String) : String :=
  String.mk (((s.toList.dropWhile jsIsWS).reverse.dropWhile jsIsWS).reverse)

/-- `s.startsWith(pre)`. -/
def jsStartsWith (s pre : String) : Bool :=
  pre.toList.isPrefixOf s.toList

/-- `s.endsWith(suf)`. -/
def jsEndsWith (s suf : String) : Bool :=
  suf.toList.reverse.isPrefixOf s.toList.reverse

/-- `s.slice(0, n)` (for `n ≥ 0`). -/
def jsTake (s : String) (n : Nat) : String :=
  String.mk (s.toList.take n)

/-- Join a list of strings with a separator (`Array.prototype.join` /
`path.join` style). -/
def joinSep (sep : String) : List String → String
  | [] => ""
  | [x] => x
  | x :: y :: xs => x ++ sep ++ joinSep sep (y :: xs)

/-- Character-list worker for `normalizePathForMatch`.  The TypeScript source
reads `p.replaceAll("\\\\", "/")`; the string literal `"\\\\"` denotes the
two-character sequence of two backslashes, so only double backslashes are
replaced (left-to-right, non-overlapping), while a single backslash is left
unchanged. -/
def replDoubleBackslash : List Char → List Char
  | '\\' :: '\\' :: rest => '/' :: replDoubleBackslash rest
  | c :: rest => c :: replDoubleBackslash rest
  | [] => []

/-- `normalizePathForMatch` from the source. -/
def normalizePathForMatch (p : String) : String :=
  String.mk (replDoubleBackslash p.toList)

/-- `text.split(/\r?\n/)`: split on newlines, dropping one carriage return
immediately before each newline. -/
def splitCRLF (s : String) : List String :=
  (splitOnChar '\n' s.toList).map (fun t =>
    if t.reverse.head? = some '\r' then String.mk t.dropLast else String.mk t)

/-! ## Path model: `List String` segment paths -/

/-- Render a segment path as the POSIX string the source manipulates
(`["r","f.txt"]` ↦ `"/r/f.txt"`). -/
def renderPath (p : List String) : String :=
  p.foldl (fun acc seg => acc ++ "/" ++ seg) ""

/-- Length of the longest common segment prefix of two paths. -/
def commonPrefixLen : List String → List String → Nat
  | a :: as, b :: bs => if a = b then commonPrefixLen as bs + 1 else 0
  | _, _ => 0

/-- `path.relative(fr, dst)` for normalized absolute segment paths: walk up
from `fr` to the common ancestor, then down into `dst`. -/
def pathRelative (fr dst : List String) : List String :=
  let c := commonPrefixLen fr dst
  List.replicate (fr.length - c) ".." ++ dst.drop c

/-- `isWithinRoot` from the source: the relative path from `rootDir` to the
candidate must be empty or must not start with a parent-traversal segment.
(The source's third check, `path.isAbsolute(rel)`, guards against
cross-device results on Windows; in the POSIX segment model `path.relative`
of two absolute paths is never absolute, so that check never fires.) -/
def isWithinRoot (rootDir candidatePath : List String) : Bool :=
  let rel := pathRelative rootDir candidatePath
  if rel = [] then true
  else if rel.head? = some ".." then false
  else true

/-- `path.normalize(path.join(base, segs))` where `base` is an absolute
normalized segment path: empty and `.` segments vanish, `..` pops one
segment (clamped at the filesystem root), others are appended. -/
def normJoin (base : List String) (segs : List String) : List String :=
  segs.foldl
    (fun acc seg =>
      if seg = "" ∨ seg = "." then acc
      else if seg = ".." then acc.dropLast
      else acc ++ [seg])
    base

/-- `path.extname` restricted to a single file name: the suffix starting at
the last dot, except that a dot in first position (hidden file) does not
count.  Worker over the characters after the first one. -/
def extSuffix : List Char → Option (List Char)
  | [] => none
  | c :: cs =>
    match extSuffix cs with
    | some s => some s
    | none => if c = '.' then some (c :: cs) else none

/-- `path.extname(p)` for a segment path: extension of the last segment. -/
def extname (p : List String) : String :=
  match p.getLast? with
  | none => ""
  | some name =>
    match name.toList with
    | [] => ""
    | _ :: rest =>
      match extSuffix rest with
      | some s => String.mk s
      | none => ""

/-! ## Filesystem model -/

/-- A filesystem node: directory, regular file (byte contents), or symbolic
link to an absolute target path. -/
inductive Node where
  | dir : Node
  | file : List Nat → Node
  | symlink : List String → Node
deriving DecidableEq, Repr

/-- Whether a node is a symbolic link. -/
def Node.isLink : Node → Bool
  | Node.symlink _ => true
  | _ => false

/-- Whether a node is a directory. -/
def Node.isDir : Node → Bool
  | Node.dir => true
  | _ => false

/-- Whether a node is a regular file. -/
def Node.isFileNode : Node → Bool
  | Node.file _ => true
  | _ => false

/-- The filesystem: canonical paths to nodes, plus the UTF-8 decoder used by
`Buffer.prototype.toString("utf8")` / `fs.readFile(p, "utf8")`. -/
structure FSys where
  nodes : List (List String × Node)
  decode : List Nat → String

/-- Look a canonical path up in the filesystem map. -/
def lookupNode (fs : FSys) (p : List String) : Option Node :=
  (fs.nodes.find? (fun kv => kv.1 == p)).map (fun kv => kv.2)

/-- Symlink-resolving path resolution, as `fs.realpath` performs it: resolve
segment by segment; a symlink restarts resolution at its absolute target
followed by the remaining segments.  `fuel` bounds the number of resolution
steps (a real resolver fails with `ELOOP`); the leftover fuel is returned so
that resolutions compose exactly. -/
def realpathAux (fs : FSys) : Nat → List String → List String → Option (List String × Nat)
  | f, cur, [] => some (cur, f)
  | 0, _, _ :: _ => none
  | f + 1, cur, seg :: rest =>
    match lookupNode fs (cur ++ [seg]) with
    | none => none
    | some (Node.symlink t) => realpathAux fs f [] (t ++ rest)
    | some _ => realpathAux fs f (cur ++ [seg]) rest

/-- `fs.realpath(p)` (with fuel `f`). -/
def realpath (fs : FSys) (f : Nat) (p : List String) : Option (List String) :=
  (realpathAux fs f [] p).map (fun r => r.1)

/-- `fs.stat(p)`: follow symlinks, then report the node found. -/
def statNode (fs : FSys) (f : Nat) (p : List String) : Option Node :=
  (realpath fs f p).bind (lookupNode fs)

/-- `fs.access(p)` succeeding: the symlink-resolved target exists. -/
def pathExistsFS (fs : FSys) (f : Nat) (p : List String) : Bool :=
  (statNode fs f p).isSome

/-- If `k = rp ++ [n]`, return that final segment `n`. -/
def childName? (rp k : List String) : Option String :=
  if k.take rp.length = rp ∧ k.length = rp.length + 1 then (k.drop rp.length).head?
  else none

/-- A directory entry as `fs.readdir(dir, { withFileTypes: true })` reports
it: the name plus the lstat-kind of the entry itself. -/
structure Dirent where
  name : String
  isSymbolicLink : Bool
  isDirectory : Bool
  isFile : Bool
deriving DecidableEq, Repr

/-- Build the `Dirent` describing node `nd` under name `n`. -/
def direntOf (n : String) (nd : Node) : Dirent :=
  { name := n
    isSymbolicLink := nd.isLink
    isDirectory := nd.isDir
    isFile := nd.isFileNode }

/-- Entries of the canonical directory `rp`: one per canonical child. -/
def readdirAt (fs : FSys) (rp : List String) : List Dirent :=
  fs.nodes.filterMap (fun kv => (childName? rp kv.1).map (fun n => direntOf n kv.2))

/-- `fs.readdir(d, { withFileTypes: true })`: resolve `d`, require a
directory, and list its entries; failures (missing or non-directory) are
`none`, which the walker skips silently. -/
def readdir (fs : FSys) (f : Nat) (d : List String) : Option (List Dirent) :=
  match realpath fs f d with
  | none => none
  | some rp =>
    match lookupNode fs rp with
    | some Node.dir => some (readdirAt fs rp)
    | _ => none

/-! ## Configuration (`getPluginCfg`, `resolveRoots`) -/

/-- One configured root (`RootCfg` in the source).  Root paths enter the
model as already-absolute normalized segment paths (the source runs them
through `toAbsPath` before any use). -/
structure RootCfg where
  id : String
  path : List String
  kind : Option String := none
  exclude : Option (List String) := none

/-- The raw plugin configuration (`api.pluginConfig`), every field optional. -/
structure RawPluginCfg where
  roots : Option (List RootCfg) := none
  maxFileBytes : Option Int := none
  maxHits : Option Int := none
  followSymlinks : Option Bool := none
  exclude : Option (List String) := none
  includeExtensions : Option (List String) := none

/-- The validated configuration (`Required<PluginCfg>` in the source). -/
structure PluginCfg where
  roots : List RootCfg
  maxFileBytes : Nat
  maxHits : Nat
  followSymlinks : Bool
  exclude : List String
  includeExtensions : List String

/-- `getPluginCfg`: fails exactly when the root list is missing or empty;
numeric limits fall back to their defaults unless positive;
`followSymlinks` must be literally `true`; `includeExtensions` keeps only
entries with non-blank trims. -/
def getPluginCfg (raw : RawPluginCfg) : Except String PluginCfg :=
  let roots := raw.roots.getD []
  if roots.isEmpty then
    Except.error "game-audio plugin misconfigured: roots is required and must be non-empty"
  else
    Except.ok
      { roots := roots
        maxFileBytes :=
          match raw.maxFileBytes with
          | some v => if v > 0 then v.toNat else 2000000
          | none => 2000000
        maxHits :=
          match raw.maxHits with
          | some v => if v > 0 then v.toNat else 200
          | none => 200
        followSymlinks := raw.followSymlinks = some true
        exclude := raw.exclude.getD []
        includeExtensions := (raw.includeExtensions.getD []).filter (fun s => ¬jsTrim s = "") }

/-- A resolved root (`resolveRoots` item): id, kind, absolute path, whether
the path is reachable on disk, per-root exclusion patterns. -/
structure ResolvedRoot where
  id : String
  kind : Option String
  path : List String
  existsOnDisk : Bool
  exclude : List String
deriving DecidableEq, Repr

/-- `resolveRoots`: validate the configuration, then resolve each root,
probing existence (a failed probe yields `existsOnDisk = false`, never an
error). -/
def resolveRoots (fs : FSys) (f : Nat) (raw : RawPluginCfg) :
    Except String (PluginCfg × List ResolvedRoot) :=
  match getPluginCfg raw with
  | Except.error e => Except.error e
  | Except.ok cfg =>
    Except.ok
      (cfg,
        cfg.roots.map (fun r =>
          { id := r.id
            kind := r.kind
            path := r.path
            existsOnDisk := pathExistsFS fs f r.path
            exclude := r.exclude.getD [] }))

/-! ## FileFilter (`shouldExclude`, `extOk`) -/

/-- `shouldExclude` from the source: normalize separators, then return true
as soon as a truthy (non-empty) global pattern, or failing that a truthy
root pattern, is a literal substring of the normalized path. -/
def shouldExclude (filePath : String) (globalExclude rootExclude : List String) : Bool :=
  let norm := normalizePathForMatch filePath
  globalExclude.any (fun pat => ¬pat = "" ∧ jsStringIncludes norm pat = true) ||
    rootExclude.any (fun pat => ¬pat = "" ∧ jsStringIncludes norm pat = true)

/-- `extOk` from the source: an empty allow-list lets everything through; otherwise
the lower-cased extension must be one of the lower-cased allowed entries. -/
def extOk (filePath : List String) (includeExtensions : List String) : Bool :=
  if includeExtensions = [] then true
  else (includeExtensions.map jsToLower).contains (jsToLower (extname filePath))

/-! ## Walker (`walkFiles`) -/

/-- The parameter record of `walkFiles`. -/
structure WalkParams where
  rootDir : List String
  rootId : String
  globalExclude : List String
  rootExclude : List String
  includeExtensions : List String
  followSymlinks : Bool

/-- Process the entries of one popped directory `d`, in `readdir` order,
returning the directories pushed (in push order) and the files yielded (in
yield order), exactly following the entry loop of `walkFiles`. -/
def processEntries (fs : FSys) (f : Nat) (wp : WalkParams) (rootReal d : List String) :
    List Dirent → List (List String) × List (List String)
  | [] => ([], [])
  | ent :: rest =>
    let tail := processEntries fs f wp rootReal d rest
    let full := d ++ [ent.name]
    if shouldExclude (renderPath full) wp.globalExclude wp.rootExclude then tail
    else if ent.isSymbolicLink then
      if ¬wp.followSymlinks then tail
      else
        match realpath fs f full with
        | none => tail
        | some real =>
          if ¬isWithinRoot rootReal real then tail
          else
            match statNode fs f full with
            | none => tail
            | some Node.dir => (full :: tail.1, tail.2)
            | some (Node.file _) =>
              if extOk full wp.includeExtensions then (tail.1, full :: tail.2) else tail
            | some (Node.symlink _) => tail
    else if ent.isDirectory then (full :: tail.1, tail.2)
    else if ent.isFile then
      if extOk full wp.includeExtensions then (tail.1, full :: tail.2) else tail
    else tail

/-- The stack loop of `walkFiles`.  The JavaScript stack pops from the end,
so the model keeps the top of the stack at the head; directories pushed
while scanning one directory's entries are therefore prepended in reverse.
`fuel` bounds the number of loop iterations (a symlinked ancestor can make
the real traversal loop forever); running out of fuel truncates the walk. -/
def walkLoop (fs : FSys) (f : Nat) (wp : WalkParams) (rootReal : List String) :
    Nat → List (List String) → List (List String)
  | 0, _ => []
  | _ + 1, [] => []
  | fuel + 1, d :: stack =>
    match readdir fs f d with
    | none => walkLoop fs f wp rootReal fuel stack
    | some ents =>
      let step := processEntries fs f wp rootReal d ents
      step.2 ++ walkLoop fs f wp rootReal fuel (step.1.reverse ++ stack)

/-- `walkFiles`: resolve the root's real path (falling back to the nominal
path), then run the stack loop from the nominal root. -/
def walkFiles (fs : FSys) (f fuel : Nat) (wp : WalkParams) : List (List String) :=
  walkLoop fs f wp ((realpath fs f wp.rootDir).getD wp.rootDir) fuel [wp.rootDir]

/-! ## Reader (`readTextFileLimited`) -/

/-- `readTextFileLimited`: stat the file; missing targets, non-files and
files larger than `maxBytes` are unavailable (`none`); otherwise decode the
whole contents as text. -/
def readTextFileLimited (fs : FSys) (f : Nat) (p : List String) (maxBytes : Nat) :
    Option String :=
  match statNode fs f p with
  | none => none
  | some Node.dir => none
  | some (Node.symlink _) => none
  | some (Node.file content) =>
    if content.length > maxBytes then none else some (fs.decode content)

/-! ## Matcher (`makeMatcher`) -/

/-- First index `j ≥ i` at which `pat` occurs in `s` (character lists). -/
def findFromIdx (pat s : List Char) (i : Nat) : Option Nat :=
  (List.range (s.length + 1)).find? (fun j => decide (i ≤ j) && pat.isPrefixOf (s.drop j))

/-- One `re.test(s)` call on the `g`-flagged regex that `makeMatcher`
compiles, for a metacharacter-free pattern: matching starts at the regex's
persistent `lastIndex`; on success `lastIndex` advances past the match, on
failure it resets to `0`.  The `i` flag lower-cases both sides. -/
def gTest (caseSensitive : Bool) (pat : String) (lastIndex : Nat) (s : String) : Bool × Nat :=
  let p := if caseSensitive then pat.toList else (pat.toList.map Char.toLower)
  let cs := if caseSensitive then s.toList else (s.toList.map Char.toLower)
  match findFromIdx p cs lastIndex with
  | some j => (true, j + p.length)
  | none => (false, 0)

/-- One call of the line matcher built by `makeMatcher`, threading the
regex's `lastIndex` state (substring mode ignores and preserves it). -/
def matcherStep (query : String) (regex caseSensitive : Bool) (lastIndex : Nat) (s : String) :
    Bool × Nat :=
  if regex then gTest caseSensitive query lastIndex s
  else
    let q := if caseSensitive then query else jsToLower query
    let hay := if caseSensitive then s else jsToLower s
    (jsStringIncludes hay q, lastIndex)

/-! ## SearchEngine (`searchAcrossRoots`) -/

/-- One search hit. -/
structure SearchHit where
  rootId : String
  file : String
  line : Nat
  text : String
deriving DecidableEq, Repr

/-- The result record of `searchAcrossRoots`. -/
structure SearchResult where
  hits : List SearchHit
  scannedFiles : Nat
  skippedLargeFiles : Nat
deriving DecidableEq, Repr

/-- The mutable state of one `searchAcrossRoots` call: the accumulators plus
the matcher's persistent `lastIndex`. -/
structure SState where
  hits : List SearchHit
  scannedFiles : Nat
  skippedLargeFiles : Nat
  lastIndex : Nat
deriving DecidableEq, Repr

/-- The initial search state. -/
def initSState : SState := { hits := [], scannedFiles := 0, skippedLargeFiles := 0, lastIndex := 0 }

/-- The `hit.file` field: `path.relative(root.path, filePath) ||
entitle(filePath)`. -/
def hitFileField (rootPath fp : List String) : String :=
  let r := joinSep "/" (pathRelative rootPath fp)
  if r = "" then normalizePathForMatch (renderPath fp) else r

/-- The line loop of `searchAcrossRoots` over one file's lines (`i` is the
0-based index of the next line): test each line, append a hit per match with
the 1-based line number and the line text capped at 400 characters, and
return with the stop flag set the instant the cap is reached. -/
def scanLines (query : String) (regex caseSensitive : Bool) (maxHits : Nat)
    (rootId fileStr : String) : Nat → List String → SState → SState × Bool
  | _, [], st => (st, false)
  | i, line :: rest, st =>
    let m := matcherStep query regex caseSensitive st.lastIndex line
    let st1 := { st with lastIndex := m.2 }
    if m.1 then
      let st2 := { st1 with
        hits := st1.hits ++ [{ rootId := rootId, file := fileStr, line := i + 1,
                               text := jsTake line 400 }] }
      if st2.hits.length ≥ maxHits then (st2, true)
      else scanLines query regex caseSensitive maxHits rootId fileStr (i + 1) rest st2
    else scanLines query regex caseSensitive maxHits rootId fileStr (i + 1) rest st1

/-- The body of the per-file loop of `searchAcrossRoots`: stop if the cap is
already reached, else count the file as scanned, read it size-limited
(unavailable reads count as skipped-large), split the text into lines and
scan them. -/
def scanOneFile (fs : FSys) (f : Nat) (maxFileBytes maxHits : Nat)
    (query : String) (regex caseSensitive : Bool) (rootId : String) (rootPath : List String)
    (fp : List String) (st : SState) : SState × Bool :=
  if st.hits.length ≥ maxHits then (st, true)
  else
    let st1 := { st with scannedFiles := st.scannedFiles + 1 }
    match readTextFileLimited fs f fp maxFileBytes with
    | none => ({ st1 with skippedLargeFiles := st1.skippedLargeFiles + 1 }, false)
    | some text =>
      scanLines query regex caseSensitive maxHits rootId (hitFileField rootPath fp)
        0 (splitCRLF text) st1

/-- The per-file loop of `searchAcrossRoots` over the walked files of one
root; a set stop flag aborts the whole search. -/
def scanFiles (fs : FSys) (f : Nat) (maxFileBytes maxHits : Nat)
    (query : String) (regex caseSensitive : Bool) (rootId : String) (rootPath : List String) :
    List (List String) → SState → SState × Bool
  | [], st => (st, false)
  | fp :: rest, st =>
    let r := scanOneFile fs f maxFileBytes maxHits query regex caseSensitive rootId rootPath fp st
    if r.2 then (r.1, true)
    else scanFiles fs f maxFileBytes maxHits query regex caseSensitive rootId rootPath rest r.1

/-- The `walkFiles` parameter record built for one root inside
`searchAcrossRoots`. -/
def walkParamsFor (cfg : PluginCfg) (root : ResolvedRoot) : WalkParams :=
  { rootDir := root.path, rootId := root.id, globalExclude := cfg.exclude,
    rootExclude := root.exclude, includeExtensions := cfg.includeExtensions,
    followSymlinks := cfg.followSymlinks }

/-- The per-root loop of `searchAcrossRoots`: skip roots that do not exist,
walk and scan the others, aborting everything once the cap is reached. -/
def searchRootsLoop (fs : FSys) (f w : Nat) (cfg : PluginCfg)
    (query : String) (regex caseSensitive : Bool) (maxHits : Nat) :
    List ResolvedRoot → SState → SState
  | [], st => st
  | root :: rest, st =>
    if ¬root.existsOnDisk then
      searchRootsLoop fs f w cfg query regex caseSensitive maxHits rest st
    else
      let files := walkFiles fs f w (walkParamsFor cfg root)
      let r := scanFiles fs f cfg.maxFileBytes maxHits query regex caseSensitive
        root.id root.path files st
      if r.2 then r.1
      else searchRootsLoop fs f w cfg query regex caseSensitive maxHits rest r.1

/-- The effective hit cap: the caller's override when positive, else the
configured default. -/
def effectiveMaxHits (cfg : PluginCfg) (maxHits? : Option Int) : Nat :=
  match maxHits? with
  | some v => if v > 0 then v.toNat else cfg.maxHits
  | none => cfg.maxHits

/-- Select the roots a search runs over: a non-empty `rootIds` list keeps
exactly the resolved roots whose id it contains; an absent or empty list
keeps them all. -/
def selectRoots (roots : List ResolvedRoot) (rootIds : Option (List String)) :
    List ResolvedRoot :=
  match rootIds with
  | some ids => if ids.length > 0 then roots.filter (fun r => ids.contains r.id) else roots
  | none => roots

/-- `searchAcrossRoots` (`f` is the symlink-resolution fuel, `w` the walker
fuel). -/
def searchAcrossRoots (fs : FSys) (f w : Nat) (raw : RawPluginCfg) (query : String)
    (rootIds : Option (List String)) (regex caseSensitive : Bool) (maxHits? : Option Int) :
    Except String SearchResult :=
  match resolveRoots fs f raw with
  | Except.error e => Except.error e
  | Except.ok (cfg, roots) =>
    let selected := selectRoots roots rootIds
    let mh := effectiveMaxHits cfg maxHits?
    let st := searchRootsLoop fs f w cfg query regex caseSensitive mh selected initSState
    Except.ok { hits := st.hits, scannedFiles := st.scannedFiles,
                skippedLargeFiles := st.skippedLargeFiles }

/-! ## Read tool (`readFileFromRoot`) -/

/-- The result record of `readFileFromRoot` (`absPath` kept as a segment
path). -/
structure ReadResult where
  rootId : String
  absPath : List String
  relPath : String
  truncated : Bool
  text : String
deriving DecidableEq, Repr

/-- The effective byte bound of a direct read: the caller's `maxBytes` when
positive, else the configured `maxFileBytes`. -/
def effectiveReadBytes (cfg : PluginCfg) (maxBytes? : Option Int) : Nat :=
  match maxBytes? with
  | some v => if v > 0 then v.toNat else cfg.maxFileBytes
  | none => cfg.maxFileBytes

/-- `readFileFromRoot`, the guarded single-file read. -/
def readFileFromRoot (fs : FSys) (f : Nat) (raw : RawPluginCfg)
    (rootId relPath : String) (maxBytes? : Option Int) : Except String ReadResult :=
  match resolveRoots fs f raw with
  | Except.error e => Except.error e
  | Except.ok (cfg, roots) =>
    match roots.find? (fun r => r.id == rootId) with
    | none => Except.error ("Unknown rootId: " ++ rootId)
    | some root =>
      if ¬root.existsOnDisk then
        Except.error ("Root does not exist: " ++ root.id ++ " (" ++ renderPath root.path ++ ")")
      else
        let rel := jsTrim relPath
        if (rel == "") || jsStartsWith rel "/" || jsStringIncludes rel ".." then
          Except.error "relPath must be a safe, relative path (no absolute paths / ..)"
        else
          let abs := normJoin root.path (jsSplit rel '/')
          if ¬isWithinRoot root.path abs then Except.error "Path escapes root"
          else
            let relFromRoot := pathRelative root.path abs
            let rootReal := (realpath fs f root.path).getD root.path
            match realpath fs f abs with
            | none => Except.error "File not found"
            | some absReal =>
              if ¬isWithinRoot rootReal absReal then
                Except.error "Path escapes root (symlink)"
              else
                let expectedReal := normJoin rootReal relFromRoot
                if !cfg.followSymlinks && !(absReal == expectedReal) then
                  Except.error "Symlinks are not allowed by policy"
                else if shouldExclude (renderPath abs) cfg.exclude root.exclude then
                  Except.error "Path is excluded by policy"
                else
                  let maxBytes := effectiveReadBytes cfg maxBytes?
                  match statNode fs f abs with
                  | none => Except.error "File not found"
                  | some Node.dir => Except.error "Not a file"
                  | some (Node.symlink _) => Except.error "Not a file"
                  | some (Node.file content) =>
                    let trunc := decide (content.length > maxBytes)
                    Except.ok
                      { rootId := root.id
                        absPath := abs
                        relPath := rel
                        truncated := trunc
                        text := fs.decode (if trunc then content.take maxBytes else content) }

/-! ## EventHeuristic (`audio_check_event`) -/

/-- The result record of `audio_check_event`: the four raw branch results
(absent when that branch's search raised) and the three derived booleans. -/
structure CheckEventResult where
  requirements : Option SearchResult
  wwiseNameAttr : Option SearchResult
  unityRefs : Option SearchResult
  fallback : Option SearchResult
  requirementsMentioned : Bool
  wwiseProbablyDefined : Bool
  unityReferenced : Bool
deriving DecidableEq, Repr

/-- `(r?.hits?.length ?? 0) > 0`. -/
def hitsNonempty (r : Option SearchResult) : Bool :=
  decide (0 < (r.map (fun x => x.hits.length)).getD 0)

/-- `audio_check_event.execute`: validate the event name, run the three
scoped searches and the unconditional unscoped fallback (each with errors
swallowed to an absent branch), and derive the three booleans. -/
def checkEvent (fs : FSys) (f w : Nat) (raw : RawPluginCfg) (eventName : String) :
    Except String CheckEventResult :=
  if jsTrim eventName = "" then Except.error "eventName required"
  else
    let req := (searchAcrossRoots fs f w raw eventName (some ["requirements"])
      false false none).toOption
    let wwise := (searchAcrossRoots fs f w raw ("Name=\"" ++ eventName ++ "\"")
      (some ["wwise"]) false false none).toOption
    let unity := (searchAcrossRoots fs f w raw eventName (some ["unity"])
      false false none).toOption
    let fallback := (searchAcrossRoots fs f w raw eventName none false false none).toOption
    Except.ok
      { requirements := req
        wwiseNameAttr := wwise
        unityRefs := unity
        fallback := fallback
        requirementsMentioned := hitsNonempty req
        wwiseProbablyDefined := hitsNonempty wwise
        unityReferenced := hitsNonempty unity }

/-! ## Spec-side definitions (for refutations of claims as literally stated) -/

/-- Modelled from the spec: claim C6's reading of separator normalization in
`shouldExclude` — every backslash becomes a forward slash and exclusion
holds iff SOME pattern (possibly empty) is a literal substring of the
normalized path. -/
def specShouldExclude (filePath : String) (globalExclude rootExclude : List String) : Bool :=
  let norm := String.mk (filePath.toList.map (fun c => if c = '\\' then '/' else c))
  (globalExclude ++ rootExclude).any (fun pat => jsStringIncludes norm pat)

/-- Modelled from the spec: claim C3's reading of "contains a
parent-traversal segment" — some slash-separated segment of the trimmed
relative path is literally `..`. -/
def specHasTraversalSegment (rel : String) : Bool :=
  (jsSplit rel '/').contains ".."

/-! ## Well-formedness of a model filesystem -/

/-- The filesystem map binds each canonical path at most once. -/
def KeysNodup (fs : FSys) : Prop :=
  fs.nodes.Pairwise (fun a b => a.1 ≠ b.1)

/-- No canonical path in the filesystem contains a `..` segment (canonical
paths are normalized, so a parent-traversal segment never names a real
entry). -/
def NoDotDotKeys (fs : FSys) : Prop :=
  ∀ kv ∈ fs.nodes, ¬".." ∈ kv.1

instance (fs : FSys) : Decidable (KeysNodup fs) := by
  unfold KeysNodup; infer_instance

instance (fs : FSys) : Decidable (NoDotDotKeys fs) := by
  unfold NoDotDotKeys; infer_instance

/-! ## Lemmas about the filesystem model -/

theorem find?_eq_of_mem_pairwise {l : List (List String × Node)}
    (hnd : l.Pairwise (fun a b => a.1 ≠ b.1)) {k : List String} {v : Node}
    (h : (k, v) ∈ l) : l.find? (fun kv => kv.1 == k) = some (k, v) := by
  induction l with
  | nil => cases h
  | cons a t ih =>
    rcases List.mem_cons.mp h with rfl | hmem
    · simp [List.find?_cons]
    · have hne : a.1 ≠ k := by
        have := (List.pairwise_cons.mp hnd).1 (k, v) hmem
        simpa using this
      have hpw := (List.pairwise_cons.mp hnd).2
      simp only [List.find?_cons]
      have : (a.1 == k) = false := by simpa using hne
      rw [this]
      exact ih hpw hmem

theorem lookupNode_eq_of_mem {fs : FSys} (hnd : KeysNodup fs) {k : List String} {v : Node}
    (h : (k, v) ∈ fs.nodes) : lookupNode fs k = some v := by
  unfold lookupNode
  rw [find?_eq_of_mem_pairwise hnd h]
  rfl

theorem realpathAux_append (fs : FSys) (ys : List String) :
    ∀ (f : Nat) (cur xs : List String),
      realpathAux fs f cur (xs ++ ys) =
        match realpathAux fs f cur xs with
        | none => none
        | some (q, g) => realpathAux fs g q ys := by
  intro f
  induction f with
  | zero =>
    intro cur xs
    cases xs with
    | nil => simp [realpathAux]
    | cons seg xs => simp [realpathAux]
  | succ f ih =>
    intro cur xs
    cases xs with
    | nil => simp [realpathAux]
    | cons seg xs =>
      simp only [List.cons_append, realpathAux]
      rcases hl : lookupNode fs (cur ++ [seg]) with _ | nd
      · rfl
      · cases nd with
        | dir => simpa using ih (cur ++ [seg]) xs
        | file c => simpa using ih (cur ++ [seg]) xs
        | symlink t =>
          have := ih [] (t ++ xs)
          simpa [List.append_assoc] using this

theorem realpathAux_mono (fs : FSys) :
    ∀ (f : Nat) (cur rest : List String) (q : List String) (g k : Nat),
      realpathAux fs f cur rest = some (q, g) →
      realpathAux fs (f + k) cur rest = some (q, g + k) := by
  intro f
  induction f with
  | zero =>
    intro cur rest q g k h
    cases rest with
    | nil =>
      simp [realpathAux] at h
      rcases h with ⟨rfl, rfl⟩
      simp [realpathAux]
    | cons seg rest => simp [realpathAux] at h
  | succ f ih =>
    intro cur rest q g k h
    cases rest with
    | nil =>
      simp [realpathAux] at h
      rcases h with ⟨rfl, rfl⟩
      simp [realpathAux]
    | cons seg rest =>
      have hsk : f + 1 + k = (f + k) + 1 := by omega
      rw [hsk]
      simp only [realpathAux] at h ⊢
      rcases hl : lookupNode fs (cur ++ [seg]) with _ | nd
      · rw [hl] at h; cases h
      · rw [hl] at h
        cases nd with
        | dir => exact ih (cur ++ [seg]) rest q g k h
        | file c => exact ih (cur ++ [seg]) rest q g k h
        | symlink t => exact ih [] (t ++ rest) q g k h

theorem realpath_det {fs : FSys} {f g : Nat} {p q r : List String}
    (hf : realpath fs f p = some q) (hg : realpath fs g p = some r) : q = r := by
  unfold realpath at hf hg
  rcases hf' : realpathAux fs f [] p with _ | ⟨q', fq⟩ <;> rw [hf'] at hf
  · cases hf
  rcases hg' : realpathAux fs g [] p with _ | ⟨r', fr⟩ <;> rw [hg'] at hg
  · cases hg
  simp at hf hg
  subst hf; subst hg
  rcases Nat.le_total f g with hle | hle
  · have hm := realpathAux_mono fs f [] p q' fq (g - f) hf'
    rw [Nat.add_sub_cancel' hle] at hm
    rw [hm] at hg'
    exact congrArg Prod.fst (Option.some.inj hg')
  · have hm := realpathAux_mono fs g [] p r' fr (f - g) hg'
    rw [Nat.add_sub_cancel' hle] at hm
    rw [hm] at hf'
    exact (congrArg Prod.fst (Option.some.inj hf')).symm

theorem realpath_snoc {fs : FSys} {F : Nat} {p q : List String} {f' : Nat} {n : String}
    {nd : Node} (haux : realpathAux fs F [] p = some (q, f'))
    (hl : lookupNode fs (q ++ [n]) = some nd) (hnl : nd.isLink = false) :
    realpath fs (F + 1) (p ++ [n]) = some (q ++ [n]) := by
  have hmono := realpathAux_mono fs F [] p q f' 1 haux
  unfold realpath
  rw [realpathAux_append fs [n] (F + 1) [] p, hmono]
  simp only [realpathAux, hl]
  cases nd with
  | dir => simp [realpathAux]
  | file c => simp [realpathAux]
  | symlink t => simp [Node.isLink] at hnl

theorem realpath_append_some {fs : FSys} {f : Nat} {p s q : List String}
    (h : realpath fs f (p ++ s) = some q) : ∃ r, realpath fs f p = some r := by
  unfold realpath at h ⊢
  rw [realpathAux_append fs s f [] p] at h
  rcases hx : realpathAux fs f [] p with _ | ⟨r, g⟩
  · rw [hx] at h; cases h
  · exact ⟨r, rfl⟩

theorem childName?_eq_some {rp k : List String} {n : String} :
    childName? rp k = some n ↔ k = rp ++ [n] := by
  unfold childName?
  constructor
  · intro h
    split at h
    case isTrue hc =>
      rcases hc with ⟨htake, hlen⟩
      have hk : k = k.take rp.length ++ k.drop rp.length := (List.take_append_drop _ _).symm
      have hdlen : (k.drop rp.length).length = 1 := by
        rw [List.length_drop, hlen]; omega
      rcases hd : k.drop rp.length with _ | ⟨x, xs⟩
      · rw [hd] at hdlen; simp at hdlen
      · rw [hd] at hdlen h
        simp at hdlen h
        subst hdlen
        subst h
        rw [hd, htake] at hk
        exact hk
    case isFalse => cases h
  · rintro rfl
    have htake : (rp ++ [n]).take rp.length = rp := List.take_left rp [n]
    have hlen : (rp ++ [n]).length = rp.length + 1 := by simp
    have hdrop : (rp ++ [n]).drop rp.length = [n] := List.drop_left rp [n]
    simp [htake, hlen, hdrop]

theorem readdir_eq_some {fs : FSys} {F : Nat} {d : List String} {ents : List Dirent}
    (h : readdir fs F d = some ents) :
    ∃ rp f', realpathAux fs F [] d = some (rp, f') ∧ lookupNode fs rp = some Node.dir ∧
      ents = readdirAt fs rp := by
  unfold readdir at h
  rcases hr : realpath fs F d with _ | rp <;> rw [hr] at h
  · cases h
  dsimp only at h
  rcases hl : lookupNode fs rp with _ | nd <;> rw [hl] at h
  · cases h
  cases nd with
  | dir =>
    simp at h
    unfold realpath at hr
    rcases haux : realpathAux fs F [] d with _ | qf <;> rw [haux] at hr
    · cases hr
    have hq : qf.1 = rp := by simpa using hr
    refine ⟨rp, qf.2, ?_, hl, h.symm⟩
    rw [← hq]
  | file c => simp at h
  | symlink t => simp at h

theorem readdirAt_mem {fs : FSys} {rp : List String} {ent : Dirent}
    (h : ent ∈ readdirAt fs rp) :
    ∃ nd, (rp ++ [ent.name], nd) ∈ fs.nodes ∧ ent = direntOf ent.name nd := by
  unfold readdirAt at h
  rcases List.mem_filterMap.mp h with ⟨kv, hmem, hmap⟩
  rcases hcn : childName? rp kv.1 with _ | n <;> rw [hcn] at hmap
  · cases hmap
  simp at hmap
  have hk : kv.1 = rp ++ [n] := childName?_eq_some.mp hcn
  refine ⟨kv.2, ?_, ?_⟩
  · have : ent.name = n := by rw [← hmap]; rfl
    rw [this, ← hk]
    exact hmem
  · have : ent.name = n := by rw [← hmap]; rfl
    rw [this, ← hmap]

/-! ## Lemmas about `isWithinRoot` -/

theorem commonPrefixLen_le_left (a b : List String) : commonPrefixLen a b ≤ a.length := by
  induction a generalizing b with
  | nil => simp [commonPrefixLen]
  | cons x as ih =>
    cases b with
    | nil => simp [commonPrefixLen]
    | cons y bs =>
      by_cases hxy : x = y
      · simp only [commonPrefixLen, if_pos hxy, List.length_cons]
        exact Nat.succ_le_succ (ih bs)
      · simp [commonPrefixLen, hxy]

theorem commonPrefixLen_self_append (a s : List String) :
    commonPrefixLen a (a ++ s) = a.length := by
  induction a with
  | nil =>
    cases s with
    | nil => simp [commonPrefixLen]
    | cons x xs => simp [commonPrefixLen]
  | cons x as ih => simp [commonPrefixLen, ih]

theorem commonPrefixLen_eq_length_iff (a b : List String) :
    commonPrefixLen a b = a.length ↔ a <+: b := by
  induction a generalizing b with
  | nil => simp [commonPrefixLen]
  | cons x as ih =>
    cases b with
    | nil =>
      simp only [commonPrefixLen, List.length_cons]
      constructor
      · intro h; omega
      · intro h; exact absurd h (by simp)
    | cons y bs =>
      by_cases hxy : x = y
      · subst hxy
        simp only [commonPrefixLen, List.length_cons]
        rw [if_pos trivial]
        constructor
        · intro h
          have hlen : commonPrefixLen as bs = as.length := by omega
          exact List.cons_prefix_cons.mpr ⟨rfl, (ih bs).mp hlen⟩
        · intro h
          have hlen := (ih bs).mpr (List.cons_prefix_cons.mp h).2
          omega
      · simp only [commonPrefixLen, List.length_cons]
        rw [if_neg hxy]
        constructor
        · intro h; omega
        · intro h
          exact absurd (List.cons_prefix_cons.mp h).1 hxy

theorem isWithinRoot_iff (a b : List String) :
    isWithinRoot a b = true ↔
      a <+: b ∧ (b = a ∨ ¬(b.drop a.length).head? = some "..") := by
  unfold isWithinRoot pathRelative
  by_cases hpre : a <+: b
  · have hc : commonPrefixLen a b = a.length := (commonPrefixLen_eq_length_iff a b).mpr hpre
    rcases hpre with ⟨s, rfl⟩
    rw [hc]
    simp only [Nat.sub_self, List.replicate_zero, List.nil_append, List.drop_left]
    rcases hs : s with _ | ⟨x, xs⟩
    · simp [List.prefix_append]
    · by_cases hx : x = ".."
      · subst hx
        simp [List.prefix_append]
      · have hne : ¬a ++ x :: xs = a := by
          intro hcontra
          have : (a ++ x :: xs).length = a.length := by rw [hcontra]
          simp at this
        simp [hx, hne, List.prefix_append]
  · have hlt : commonPrefixLen a b < a.length :=
      Nat.lt_of_le_of_ne (commonPrefixLen_le_left a b)
        (fun h => hpre ((commonPrefixLen_eq_length_iff a b).mp h))
    have hpos : 0 < a.length - commonPrefixLen a b := by omega
    have hrep : (List.replicate (a.length - commonPrefixLen a b) ".." ++
        b.drop (commonPrefixLen a b)).head? = some ".." := by
      rcases hn : a.length - commonPrefixLen a b with _ | m
      · omega
      · simp [List.replicate_succ]
    constructor
    · intro h
      rw [if_neg, if_pos hrep] at h
      · cases h
      · intro hnil
        rw [hnil] at hrep
        simp at hrep
    · intro h
      exact absurd h.1 hpre

theorem isWithinRoot_self (a : List String) : isWithinRoot a a = true := by
  rw [isWithinRoot_iff]
  exact ⟨List.prefix_refl a, Or.inl rfl⟩

theorem isWithinRoot_snoc {a b : List String} (n : String) (hn : ¬n = "..")
    (h : isWithinRoot a b = true) : isWithinRoot a (b ++ [n]) = true := by
  rw [isWithinRoot_iff] at h ⊢
  rcases h with ⟨hpre, hrest⟩
  refine ⟨hpre.trans (List.prefix_append b [n]), ?_⟩
  rcases hrest with rfl | hhd
  · right
    rw [List.drop_left]
    simpa using hn
  · right
    rcases hpre with ⟨s, rfl⟩
    rw [List.drop_left] at hhd
    rw [List.append_assoc, List.drop_left]
    rcases s with _ | ⟨x, xs⟩
    · simpa using hn
    · simpa using hhd

/-! ## Walker soundness -/

/-- Invariant carried for every directory on the walker's stack: every
resolution of the directory's path lands within the root's real path, and
in no-follow mode the directory is the nominal root plus a suffix whose
resolution is the real root plus the same suffix. -/
def stackInv (fs : FSys) (F : Nat) (rootDir rootRealD : List String) (follow : Bool)
    (d : List String) : Prop :=
  (∀ g rp, realpath fs g d = some rp → isWithinRoot rootRealD rp = true) ∧
  (follow = false → ∃ s, d = rootDir ++ s ∧
    ∀ rp, realpath fs F d = some rp → rp = rootRealD ++ s)

/-- Guarantee for every file path the walker yields: its symlink-resolved
real path is contained in the root's real path, and in no-follow mode it is
the nominal root plus a suffix resolving to the real root plus that same
suffix (no symlink is traversed below the root). -/
def yieldOK (fs : FSys) (rootDir rootRealD : List String) (follow : Bool)
    (p : List String) : Prop :=
  (∃ g rp, realpath fs g p = some rp ∧ isWithinRoot rootRealD rp = true) ∧
  (follow = false → ∃ s g, p = rootDir ++ s ∧ realpath fs g p = some (rootRealD ++ s))

theorem processEntries_sound {fs : FSys} {F : Nat} {wp : WalkParams}
    {rootRealD d rp : List String} {f' : Nat}
    (hnd : KeysNodup fs) (hdd : NoDotDotKeys fs)
    (haux : realpathAux fs F [] d = some (rp, f'))
    (hwithin : isWithinRoot rootRealD rp = true)
    (hnf : wp.followSymlinks = false → ∃ s, d = wp.rootDir ++ s ∧ rp = rootRealD ++ s) :
    ∀ ents,
      (∀ ent ∈ ents, ∃ nd, (rp ++ [ent.name], nd) ∈ fs.nodes ∧ ent = direntOf ent.name nd) →
      (∀ p ∈ (processEntries fs F wp rootRealD d ents).2,
          yieldOK fs wp.rootDir rootRealD wp.followSymlinks p) ∧
      (∀ p ∈ (processEntries fs F wp rootRealD d ents).1,
          stackInv fs F wp.rootDir rootRealD wp.followSymlinks p) := by
  intro ents
  induction ents with
  | nil =>
    intro _
    constructor <;> (intro p hp; simp [processEntries] at hp)
  | cons ent rest ih =>
    intro hents
    have hrest := ih (fun e he => hents e (List.mem_cons_of_mem _ he))
    obtain ⟨nd, hndmem, hentd⟩ := hents ent (List.mem_cons_self _ _)
    have hlook : lookupNode fs (rp ++ [ent.name]) = some nd := lookupNode_eq_of_mem hnd hndmem
    have hnotdd : ¬ent.name = ".." := by
      intro hcontra
      refine hdd _ hndmem ?_
      rw [hcontra] at *
      exact List.mem_append_right _ (List.mem_singleton.mpr rfl)
    have hsymflag : ent.isSymbolicLink = nd.isLink := by rw [hentd]; rfl
    have hdirflag : ent.isDirectory = nd.isDir := by rw [hentd]; rfl
    have hfileflag : ent.isFile = nd.isFileNode := by rw [hentd]; rfl
    -- facts used when the entry is not a symbolic link
    have hplain : nd.isLink = false →
        realpath fs (F + 1) (d ++ [ent.name]) = some (rp ++ [ent.name]) :=
      fun hnl => realpath_snoc haux hlook hnl
    have hwithinChild : isWithinRoot rootRealD (rp ++ [ent.name]) = true :=
      isWithinRoot_snoc ent.name hnotdd hwithin
    have hinvChild : nd.isLink = false →
        stackInv fs F wp.rootDir rootRealD wp.followSymlinks (d ++ [ent.name]) := by
      intro hnl
      constructor
      · intro g rp' hg
        rw [realpath_det hg (hplain hnl)]
        exact hwithinChild
      · intro hf
        obtain ⟨s, hds, hrs⟩ := hnf hf
        refine ⟨s ++ [ent.name], by rw [hds, List.append_assoc], ?_⟩
        intro rp'' h''
        rw [realpath_det h'' (hplain hnl), hrs, List.append_assoc]
    have hyieldChild : nd.isLink = false →
        yieldOK fs wp.rootDir rootRealD wp.followSymlinks (d ++ [ent.name]) := by
      intro hnl
      constructor
      · exact ⟨F + 1, rp ++ [ent.name], hplain hnl, hwithinChild⟩
      · intro hf
        obtain ⟨s, hds, hrs⟩ := hnf hf
        refine ⟨s ++ [ent.name], F + 1, by rw [hds, List.append_assoc], ?_⟩
        rw [hplain hnl, hrs, List.append_assoc]
    simp only [processEntries]
    by_cases hexcl :
        shouldExclude (renderPath (d ++ [ent.name])) wp.globalExclude wp.rootExclude = true
    · rw [if_pos hexcl]
      exact hrest
    · rw [if_neg hexcl]
      by_cases hsym : ent.isSymbolicLink = true
      · -- symbolic-link entry
        rw [if_pos hsym]
        by_cases hfol : wp.followSymlinks = true
        · rw [if_neg (not_not_intro hfol)]
          rcases hre : realpath fs F (d ++ [ent.name]) with _ | real
          · exact hrest
          · dsimp only
            by_cases hwr : isWithinRoot rootRealD real = true
            · rw [if_neg (not_not_intro hwr)]
              rcases hst : statNode fs F (d ++ [ent.name]) with _ | nd'
              · exact hrest
              · have hlinkInv : stackInv fs F wp.rootDir rootRealD wp.followSymlinks
                    (d ++ [ent.name]) := by
                  constructor
                  · intro g rp' hg
                    rw [realpath_det hg hre]
                    exact hwr
                  · intro hf
                    rw [hf] at hfol
                    exact Bool.noConfusion hfol
                have hlinkYield : yieldOK fs wp.rootDir rootRealD wp.followSymlinks
                    (d ++ [ent.name]) := by
                  constructor
                  · exact ⟨F, real, hre, hwr⟩
                  · intro hf
                    rw [hf] at hfol
                    exact Bool.noConfusion hfol
                cases nd' with
                | dir =>
                  dsimp only
                  constructor
                  · exact hrest.1
                  · intro p hp
                    rcases List.mem_cons.mp hp with rfl | hp
                    · exact hlinkInv
                    · exact hrest.2 p hp
                | file c =>
                  dsimp only
                  by_cases hext : extOk (d ++ [ent.name]) wp.includeExtensions = true
                  · rw [if_pos hext]
                    constructor
                    · intro p hp
                      rcases List.mem_cons.mp hp with rfl | hp
                      · exact hlinkYield
                      · exact hrest.1 p hp
                    · exact hrest.2
                  · rw [if_neg hext]
                    exact hrest
                | symlink t => exact hrest
            · rw [if_pos hwr]
              exact hrest
        · rw [if_pos hfol]
          exact hrest
      · -- plain entry: its node is not a symbolic link
        rw [if_neg hsym]
        have hnl : nd.isLink = false := by
          rw [← hsymflag]
          exact eq_false_of_ne_true hsym
        by_cases hdir : ent.isDirectory = true
        · rw [if_pos hdir]
          constructor
          · exact hrest.1
          · intro p hp
            rcases List.mem_cons.mp hp with rfl | hp
            · exact hinvChild hnl
            · exact hrest.2 p hp
        · rw [if_neg hdir]
          by_cases hfile : ent.isFile = true
          · rw [if_pos hfile]
            by_cases hext : extOk (d ++ [ent.name]) wp.includeExtensions = true
            · rw [if_pos hext]
              constructor
              · intro p hp
                rcases List.mem_cons.mp hp with rfl | hp
                · exact hyieldChild hnl
                · exact hrest.1 p hp
              · exact hrest.2
            · rw [if_neg hext]
              exact hrest
          · rw [if_neg hfile]
            exact hrest

theorem walkLoop_sound {fs : FSys} {F : Nat} {wp : WalkParams} {rootRealD : List String}
    (hnd : KeysNodup fs) (hdd : NoDotDotKeys fs) :
    ∀ (fuel : Nat) (stack : List (List String)),
      (∀ d ∈ stack, stackInv fs F wp.rootDir rootRealD wp.followSymlinks d) →
      ∀ p ∈ walkLoop fs F wp rootRealD fuel stack,
        yieldOK fs wp.rootDir rootRealD wp.followSymlinks p := by
  intro fuel
  induction fuel with
  | zero =>
    intro stack _ p hp
    simp [walkLoop] at hp
  | succ fuel ih =>
    intro stack hstack p hp
    cases stack with
    | nil => simp [walkLoop] at hp
    | cons d rest =>
      rw [walkLoop] at hp
      rcases hr : readdir fs F d with _ | ents <;> rw [hr] at hp
      · exact ih rest (fun d' hd' => hstack d' (List.mem_cons_of_mem _ hd')) p hp
      · obtain ⟨rp, f', haux, hdir, hentseq⟩ := readdir_eq_some hr
        have hinv := hstack d (List.mem_cons_self _ _)
        have hrpd : realpath fs F d = some rp := by
          unfold realpath; rw [haux]; rfl
        have hwithin := hinv.1 F rp hrpd
        have hnf : wp.followSymlinks = false →
            ∃ s, d = wp.rootDir ++ s ∧ rp = rootRealD ++ s := by
          intro hf
          obtain ⟨s, hds, hrs⟩ := hinv.2 hf
          exact ⟨s, hds, hrs rp hrpd⟩
        have hents : ∀ ent ∈ ents,
            ∃ nd, (rp ++ [ent.name], nd) ∈ fs.nodes ∧ ent = direntOf ent.name nd := by
          intro ent hent
          rw [hentseq] at hent
          exact readdirAt_mem hent
        have hpe := processEntries_sound hnd hdd haux hwithin hnf ents hents
        dsimp only at hp
        rcases List.mem_append.mp hp with hyp | hyp
        · exact hpe.1 p hyp
        · refine ih _ ?_ p hyp
          intro d' hd'
          rcases List.mem_append.mp hd' with hd' | hd'
          · exact hpe.2 d' (List.mem_reverse.mp hd')
          · exact hstack d' (List.mem_cons_of_mem _ hd')

theorem walkFiles_sound {fs : FSys} {F W : Nat} {wp : WalkParams}
    (hnd : KeysNodup fs) (hdd : NoDotDotKeys fs) :
    ∀ p ∈ walkFiles fs F W wp,
      yieldOK fs wp.rootDir ((realpath fs F wp.rootDir).getD wp.rootDir)
        wp.followSymlinks p := by
  intro p hp
  unfold walkFiles at hp
  rcases hroot : realpath fs F wp.rootDir with _ | rr
  · exfalso
    rw [hroot] at hp
    have hrd : readdir fs F wp.rootDir = none := by
      unfold readdir; rw [hroot]
    cases W with
    | zero => simp [walkLoop] at hp
    | succ w =>
      rw [walkLoop, hrd] at hp
      cases w <;> simp [walkLoop] at hp
  · rw [hroot] at hp
    simp only [Option.getD_some] at hp ⊢
    refine walkLoop_sound hnd hdd W [wp.rootDir] ?_ p hp
    intro d hd
    rw [List.mem_singleton] at hd
    subst hd
    constructor
    · intro g rp' hg
      rw [realpath_det hg hroot]
      exact isWithinRoot_self rr
    · intro _
      refine ⟨[], by simp, ?_⟩
      intro rp' h'
      rw [realpath_det h' hroot]
      simp


/-! ## Search lemmas: hit-cap bound, early termination, provenance -/

theorem scanLines_hits_le {q : String} {rg cs : Bool} {mh : Nat} {rid fstr : String} :
    ∀ (i : Nat) (lines : List String) (st : SState), st.hits.length < mh →
      ((scanLines q rg cs mh rid fstr i lines st).1).hits.length ≤ mh := by
  intro i lines
  induction lines generalizing i with
  | nil =>
    intro st hlt
    simp only [scanLines]
    omega
  | cons line rest ih =>
    intro st hlt
    simp only [scanLines]
    split
    · split
      · simp only [List.length_append, List.length_cons, List.length_nil]
        omega
      · rename_i hcap
        refine ih (i + 1) _ ?_
        simp only [List.length_append, List.length_cons, List.length_nil] at hcap ⊢
        omega
    · exact ih (i + 1) _ hlt

theorem scanOneFile_hits_le {fs : FSys} {f mb mh : Nat} {q : String} {rg cs : Bool}
    {rid : String} {rootPath fp : List String} {st : SState}
    (h : st.hits.length ≤ mh) :
    ((scanOneFile fs f mb mh q rg cs rid rootPath fp st).1).hits.length ≤ mh := by
  unfold scanOneFile
  split
  · exact h
  · rename_i hcap
    split
    · exact h
    · refine scanLines_hits_le 0 _ _ ?_
      show st.hits.length < mh
      omega

theorem scanFiles_hits_le {fs : FSys} {f mb mh : Nat} {q : String} {rg cs : Bool}
    {rid : String} {rootPath : List String} :
    ∀ (files : List (List String)) (st : SState), st.hits.length ≤ mh →
      ((scanFiles fs f mb mh q rg cs rid rootPath files st).1).hits.length ≤ mh := by
  intro files
  induction files with
  | nil => intro st h; exact h
  | cons fp rest ih =>
    intro st h
    simp only [scanFiles]
    split
    · exact scanOneFile_hits_le h
    · exact ih _ (scanOneFile_hits_le h)

theorem searchRootsLoop_hits_le {fs : FSys} {f w : Nat} {cfg : PluginCfg} {q : String}
    {rg cs : Bool} {mh : Nat} :
    ∀ (roots : List ResolvedRoot) (st : SState), st.hits.length ≤ mh →
      ((searchRootsLoop fs f w cfg q rg cs mh roots st)).hits.length ≤ mh := by
  intro roots
  induction roots with
  | nil => intro st h; exact h
  | cons root rest ih =>
    intro st h
    simp only [searchRootsLoop]
    split
    · exact ih st h
    · split
      · exact scanFiles_hits_le _ _ h
      · exact ih _ (scanFiles_hits_le _ _ h)

theorem scanLines_stop_append {q : String} {rg cs : Bool} {mh : Nat} {rid fstr : String} :
    ∀ (i : Nat) (l1 l2 : List String) (st : SState),
      (scanLines q rg cs mh rid fstr i l1 st).2 = true →
      scanLines q rg cs mh rid fstr i (l1 ++ l2) st =
        scanLines q rg cs mh rid fstr i l1 st := by
  intro i l1
  induction l1 generalizing i with
  | nil =>
    intro l2 st h
    simp [scanLines] at h
  | cons line rest ih =>
    intro l2 st h
    simp only [scanLines, List.cons_append] at h ⊢
    by_cases hm : (matcherStep q rg cs st.lastIndex line).1 = true
    · simp only [if_pos hm] at h ⊢
      by_cases hcap : (st.hits ++
          [(⟨rid, fstr, i + 1, jsTake line 400⟩ : SearchHit)]).length ≥ mh
      · simp only [if_pos hcap]
      · simp only [if_neg hcap] at h ⊢
        exact ih (i + 1) l2 _ h
    · simp only [if_neg hm] at h ⊢
      exact ih (i + 1) l2 _ h

theorem scanFiles_stop_append {fs : FSys} {f mb mh : Nat} {q : String} {rg cs : Bool}
    {rid : String} {rootPath : List String} :
    ∀ (files1 files2 : List (List String)) (st : SState),
      (scanFiles fs f mb mh q rg cs rid rootPath files1 st).2 = true →
      scanFiles fs f mb mh q rg cs rid rootPath (files1 ++ files2) st =
        scanFiles fs f mb mh q rg cs rid rootPath files1 st := by
  intro files1
  induction files1 with
  | nil =>
    intro files2 st h
    simp [scanFiles] at h
  | cons fp rest ih =>
    intro files2 st h
    simp only [scanFiles, List.cons_append] at h ⊢
    split at h
    · rename_i hstop
      simp only [hstop, eq_self_iff_true, if_true]
    · rename_i hstop
      simp only [eq_false_of_ne_true hstop, Bool.false_eq_true, if_false]
      exact ih files2 _ h

theorem searchRootsLoop_stop {fs : FSys} {f w : Nat} {cfg : PluginCfg} {q : String}
    {rg cs : Bool} {mh : Nat} {root : ResolvedRoot} {rest : List ResolvedRoot} {st : SState}
    (hex : root.existsOnDisk = true)
    (hstop : (scanFiles fs f cfg.maxFileBytes mh q rg cs root.id root.path
      (walkFiles fs f w (walkParamsFor cfg root)) st).2 = true) :
    searchRootsLoop fs f w cfg q rg cs mh (root :: rest) st =
      (scanFiles fs f cfg.maxFileBytes mh q rg cs root.id root.path
        (walkFiles fs f w (walkParamsFor cfg root)) st).1 := by
  simp only [searchRootsLoop]
  rw [if_neg (not_not_intro hex)]
  simp only [hstop, eq_self_iff_true, if_true]

theorem searchRootsLoop_skip_dead {fs : FSys} {f w : Nat} {cfg : PluginCfg} {q : String}
    {rg cs : Bool} {mh : Nat} {root : ResolvedRoot} {rest : List ResolvedRoot} {st : SState}
    (hex : root.existsOnDisk = false) :
    searchRootsLoop fs f w cfg q rg cs mh (root :: rest) st =
      searchRootsLoop fs f w cfg q rg cs mh rest st := by
  simp only [searchRootsLoop]
  rw [if_pos (by rw [hex]; exact Bool.false_ne_true)]

theorem searchRootsLoop_all_dead {fs : FSys} {f w : Nat} {cfg : PluginCfg} {q : String}
    {rg cs : Bool} {mh : Nat} :
    ∀ (roots : List ResolvedRoot) (st : SState),
      (∀ r ∈ roots, r.existsOnDisk = false) →
      searchRootsLoop fs f w cfg q rg cs mh roots st = st := by
  intro roots
  induction roots with
  | nil => intro st _; rfl
  | cons root rest ih =>
    intro st hall
    rw [searchRootsLoop_skip_dead (hall root (List.mem_cons_self _ _))]
    exact ih st (fun r hr => hall r (List.mem_cons_of_mem _ hr))

theorem scanLines_hits_mem {q : String} {rg cs : Bool} {mh : Nat} {rid fstr : String} :
    ∀ (i : Nat) (lines : List String) (st : SState) (h : SearchHit),
      h ∈ ((scanLines q rg cs mh rid fstr i lines st).1).hits →
      h ∈ st.hits ∨ (h.rootId = rid ∧ h.file = fstr) := by
  intro i lines
  induction lines generalizing i with
  | nil =>
    intro st h hmem
    simp only [scanLines] at hmem
    exact Or.inl hmem
  | cons line rest ih =>
    intro st h hmem
    simp only [scanLines] at hmem
    split at hmem
    · split at hmem
      · simp only at hmem
        rcases List.mem_append.mp hmem with hmem | hmem
        · exact Or.inl hmem
        · rw [List.mem_singleton] at hmem
          subst hmem
          exact Or.inr ⟨rfl, rfl⟩
      · rcases ih (i + 1) _ h hmem with hmem' | hmem'
        · simp only at hmem'
          rcases List.mem_append.mp hmem' with hmem' | hmem'
          · exact Or.inl hmem'
          · rw [List.mem_singleton] at hmem'
            subst hmem'
            exact Or.inr ⟨rfl, rfl⟩
        · exact Or.inr hmem'
    · rcases ih (i + 1) _ h hmem with hmem' | hmem'
      · exact Or.inl hmem'
      · exact Or.inr hmem'

theorem scanOneFile_hits_mem {fs : FSys} {f mb mh : Nat} {q : String} {rg cs : Bool}
    {rid : String} {rootPath fp : List String} {st : SState} {h : SearchHit}
    (hmem : h ∈ ((scanOneFile fs f mb mh q rg cs rid rootPath fp st).1).hits) :
    h ∈ st.hits ∨ (h.rootId = rid ∧ h.file = hitFileField rootPath fp) := by
  unfold scanOneFile at hmem
  split at hmem
  · exact Or.inl hmem
  · split at hmem
    · exact Or.inl hmem
    · dsimp only at hmem
      have hx := scanLines_hits_mem 0 _ _ h hmem
      exact hx

theorem scanFiles_hits_mem {fs : FSys} {f mb mh : Nat} {q : String} {rg cs : Bool}
    {rid : String} {rootPath : List String} :
    ∀ (files : List (List String)) (st : SState) (h : SearchHit),
      h ∈ ((scanFiles fs f mb mh q rg cs rid rootPath files st).1).hits →
      h ∈ st.hits ∨ ∃ fp ∈ files, h.rootId = rid ∧ h.file = hitFileField rootPath fp := by
  intro files
  induction files with
  | nil => intro st h hmem; exact Or.inl hmem
  | cons fp rest ih =>
    intro st h hmem
    simp only [scanFiles] at hmem
    split at hmem
    · rcases scanOneFile_hits_mem hmem with hin | hin
      · exact Or.inl hin
      · exact Or.inr ⟨fp, List.mem_cons_self _ _, hin⟩
    · rcases ih _ h hmem with hin | ⟨fp', hfp', hh⟩
      · rcases scanOneFile_hits_mem hin with hin' | hin'
        · exact Or.inl hin'
        · exact Or.inr ⟨fp, List.mem_cons_self _ _, hin'⟩
      · exact Or.inr ⟨fp', List.mem_cons_of_mem _ hfp', hh⟩

theorem searchRootsLoop_hits_mem {fs : FSys} {f w : Nat} {cfg : PluginCfg} {q : String}
    {rg cs : Bool} {mh : Nat} :
    ∀ (roots : List ResolvedRoot) (st : SState) (h : SearchHit),
      h ∈ (searchRootsLoop fs f w cfg q rg cs mh roots st).hits →
      h ∈ st.hits ∨ ∃ root ∈ roots, root.existsOnDisk = true ∧
        ∃ fp ∈ walkFiles fs f w (walkParamsFor cfg root),
          h.rootId = root.id ∧ h.file = hitFileField root.path fp := by
  intro roots
  induction roots with
  | nil => intro st h hmem; exact Or.inl hmem
  | cons root rest ih =>
    intro st h hmem
    simp only [searchRootsLoop] at hmem
    split at hmem
    · rcases ih st h hmem with hin | ⟨root', hroot', hrest⟩
      · exact Or.inl hin
      · exact Or.inr ⟨root', List.mem_cons_of_mem _ hroot', hrest⟩
    · rename_i hexn
      have hex : root.existsOnDisk = true := by
        by_contra hc
        exact hexn (fun hcontra => hc hcontra)
      split at hmem
      · rcases scanFiles_hits_mem _ st h hmem with hin | ⟨fp, hfp, hh⟩
        · exact Or.inl hin
        · exact Or.inr ⟨root, List.mem_cons_self _ _, hex, fp, hfp, hh⟩
      · rcases ih _ h hmem with hin | ⟨root', hroot', hrest⟩
        · rcases scanFiles_hits_mem _ st h hin with hin' | ⟨fp, hfp, hh⟩
          · exact Or.inl hin'
          · exact Or.inr ⟨root, List.mem_cons_self _ _, hex, fp, hfp, hh⟩
        · exact Or.inr ⟨root', List.mem_cons_of_mem _ hroot', hrest⟩

/-! ## Read-tool characterization -/

/-- The conjunction of conditions under which `readFileFromRoot` succeeds. -/
def ReadOkConds (fs : FSys) (f : Nat) (raw : RawPluginCfg) (rootId relPath : String) : Prop :=
  ∃ cfg roots root,
    resolveRoots fs f raw = Except.ok (cfg, roots) ∧
    roots.find? (fun r => r.id == rootId) = some root ∧
    root.existsOnDisk = true ∧
    ¬jsTrim relPath = "" ∧
    jsStartsWith (jsTrim relPath) "/" = false ∧
    jsStringIncludes (jsTrim relPath) ".." = false ∧
    isWithinRoot root.path (normJoin root.path (jsSplit (jsTrim relPath) '/')) = true ∧
    (∃ absReal,
      realpath fs f (normJoin root.path (jsSplit (jsTrim relPath) '/')) = some absReal ∧
      isWithinRoot ((realpath fs f root.path).getD root.path) absReal = true ∧
      (cfg.followSymlinks = false →
        absReal = normJoin ((realpath fs f root.path).getD root.path)
          (pathRelative root.path (normJoin root.path (jsSplit (jsTrim relPath) '/'))))) ∧
    shouldExclude (renderPath (normJoin root.path (jsSplit (jsTrim relPath) '/')))
      cfg.exclude root.exclude = false ∧
    (∃ content, statNode fs f (normJoin root.path (jsSplit (jsTrim relPath) '/')) =
      some (Node.file content))

theorem readFileFromRoot_isOk_imp {fs : FSys} {f : Nat} {raw : RawPluginCfg}
    {rootId relPath : String} {mb? : Option Int}
    (h : (readFileFromRoot fs f raw rootId relPath mb?).isOk = true) :
    ReadOkConds fs f raw rootId relPath := by
  unfold readFileFromRoot at h
  rcases hres : resolveRoots fs f raw with e | ⟨cfg, roots⟩ <;> rw [hres] at h
  · simp [Except.isOk, Except.toBool] at h
  dsimp only at h
  rcases hfind : roots.find? (fun r => r.id == rootId) with _ | root <;> rw [hfind] at h
  · simp [Except.isOk, Except.toBool] at h
  dsimp only at h
  by_cases hex : root.existsOnDisk = true
  · rw [if_neg (not_not_intro hex)] at h
    by_cases hrel : ((jsTrim relPath == "") || jsStartsWith (jsTrim relPath) "/" ||
        jsStringIncludes (jsTrim relPath) "..") = true
    · rw [if_pos hrel] at h
      simp [Except.isOk, Except.toBool] at h
    · rw [if_neg hrel] at h
      simp only [Bool.or_eq_true, beq_iff_eq, not_or, Bool.not_eq_true] at hrel
      obtain ⟨⟨hrel1, hrel2⟩, hrel3⟩ := hrel
      by_cases hwithin : isWithinRoot root.path
          (normJoin root.path (jsSplit (jsTrim relPath) '/')) = true
      · rw [if_neg (not_not_intro hwithin)] at h
        rcases hreal : realpath fs f (normJoin root.path (jsSplit (jsTrim relPath) '/'))
          with _ | absReal <;> rw [hreal] at h
        · simp [Except.isOk, Except.toBool] at h
        dsimp only at h
        by_cases hwr : isWithinRoot ((realpath fs f root.path).getD root.path) absReal = true
        · rw [if_neg (not_not_intro hwr)] at h
          by_cases hpol : (!cfg.followSymlinks && !(absReal == normJoin
              ((realpath fs f root.path).getD root.path)
              (pathRelative root.path
                (normJoin root.path (jsSplit (jsTrim relPath) '/'))))) = true
          · rw [if_pos hpol] at h
            simp [Except.isOk, Except.toBool] at h
          · rw [if_neg hpol] at h
            by_cases hexcl : shouldExclude
                (renderPath (normJoin root.path (jsSplit (jsTrim relPath) '/')))
                cfg.exclude root.exclude = true
            · rw [if_pos hexcl] at h
              simp [Except.isOk, Except.toBool] at h
            · rw [if_neg hexcl] at h
              rcases hstat : statNode fs f (normJoin root.path (jsSplit (jsTrim relPath) '/'))
                with _ | nd <;> rw [hstat] at h
              · simp [Except.isOk, Except.toBool] at h
              cases nd with
              | dir => simp [Except.isOk, Except.toBool] at h
              | symlink t => simp [Except.isOk, Except.toBool] at h
              | file content =>
                refine ⟨cfg, roots, root, hres, hfind, hex, hrel1, hrel2, hrel3, hwithin,
                  ⟨absReal, hreal, hwr, ?_⟩, eq_false_of_ne_true hexcl, ⟨content, hstat⟩⟩
                intro hfol
                by_contra hne
                apply hpol
                simp [hfol, hne]
        · rw [if_pos hwr] at h
          simp [Except.isOk, Except.toBool] at h
      · rw [if_pos hwithin] at h
        simp [Except.isOk, Except.toBool] at h
  · rw [if_pos hex] at h
    simp [Except.isOk, Except.toBool] at h

theorem readFileFromRoot_isOk_of_conds {fs : FSys} {f : Nat} {raw : RawPluginCfg}
    {rootId relPath : String} (mb? : Option Int)
    (h : ReadOkConds fs f raw rootId relPath) :
    (readFileFromRoot fs f raw rootId relPath mb?).isOk = true := by
  obtain ⟨cfg, roots, root, hres, hfind, hex, hrel1, hrel2, hrel3, hwithin,
    ⟨absReal, hreal, hwr, hpol⟩, hexcl, content, hstat⟩ := h
  have hpolB : ¬((!cfg.followSymlinks && !(absReal == normJoin
      ((realpath fs f root.path).getD root.path)
      (pathRelative root.path (normJoin root.path (jsSplit (jsTrim relPath) '/'))))) = true) := by
    rcases hf : cfg.followSymlinks
    · simp [hpol hf]
    · simp
  unfold readFileFromRoot
  rw [hres]
  dsimp only
  rw [hfind]
  dsimp only
  rw [if_neg (not_not_intro hex)]
  rw [if_neg (show ¬(((jsTrim relPath == "") || jsStartsWith (jsTrim relPath) "/" ||
      jsStringIncludes (jsTrim relPath) "..") = true) by simp [hrel1, hrel2, hrel3])]
  rw [if_neg (not_not_intro hwithin)]
  rw [hreal]
  dsimp only
  rw [if_neg (not_not_intro hwr)]
  rw [if_neg hpolB]
  rw [if_neg (by simp [hexcl])]
  rw [hstat]
  simp [Except.isOk, Except.toBool]

theorem readFileFromRoot_ok_val {fs : FSys} {f : Nat} {raw : RawPluginCfg}
    {rootId relPath : String} {mb? : Option Int} {out : ReadResult}
    (h : readFileFromRoot fs f raw rootId relPath mb? = Except.ok out) :
    ∃ cfg roots root content,
      resolveRoots fs f raw = Except.ok (cfg, roots) ∧
      roots.find? (fun r => r.id == rootId) = some root ∧
      statNode fs f (normJoin root.path (jsSplit (jsTrim relPath) '/')) =
        some (Node.file content) ∧
      out = { rootId := root.id,
              absPath := normJoin root.path (jsSplit (jsTrim relPath) '/'),
              relPath := jsTrim relPath,
              truncated := decide (content.length > effectiveReadBytes cfg mb?),
              text := fs.decode (if decide (content.length > effectiveReadBytes cfg mb?) = true
                then content.take (effectiveReadBytes cfg mb?) else content) } := by
  unfold readFileFromRoot at h
  rcases hres : resolveRoots fs f raw with e | ⟨cfg, roots⟩ <;> rw [hres] at h
  · cases h
  dsimp only at h
  rcases hfind : roots.find? (fun r => r.id == rootId) with _ | root <;> rw [hfind] at h
  · cases h
  dsimp only at h
  by_cases hex : root.existsOnDisk = true
  · rw [if_neg (not_not_intro hex)] at h
    by_cases hrel : ((jsTrim relPath == "") || jsStartsWith (jsTrim relPath) "/" ||
        jsStringIncludes (jsTrim relPath) "..") = true
    · rw [if_pos hrel] at h
      cases h
    · rw [if_neg hrel] at h
      by_cases hwithin : isWithinRoot root.path
          (normJoin root.path (jsSplit (jsTrim relPath) '/')) = true
      · rw [if_neg (not_not_intro hwithin)] at h
        rcases hreal : realpath fs f (normJoin root.path (jsSplit (jsTrim relPath) '/'))
          with _ | absReal <;> rw [hreal] at h
        · cases h
        dsimp only at h
        by_cases hwr : isWithinRoot ((realpath fs f root.path).getD root.path) absReal = true
        · rw [if_neg (not_not_intro hwr)] at h
          by_cases hpol : (!cfg.followSymlinks && !(absReal == normJoin
              ((realpath fs f root.path).getD root.path)
              (pathRelative root.path
                (normJoin root.path (jsSplit (jsTrim relPath) '/'))))) = true
          · rw [if_pos hpol] at h
            cases h
          · rw [if_neg hpol] at h
            by_cases hexcl : shouldExclude
                (renderPath (normJoin root.path (jsSplit (jsTrim relPath) '/')))
                cfg.exclude root.exclude = true
            · rw [if_pos hexcl] at h
              cases h
            · rw [if_neg hexcl] at h
              rcases hstat : statNode fs f (normJoin root.path (jsSplit (jsTrim relPath) '/'))
                with _ | nd <;> rw [hstat] at h
              · cases h
              cases nd with
              | dir => cases h
              | symlink t => cases h
              | file content =>
                exact ⟨cfg, roots, root, content, rfl, hfind, hstat,
                  (Except.ok.inj h).symm⟩
        · rw [if_pos hwr] at h
          cases h
      · rw [if_pos hwithin] at h
        cases h
  · rw [if_pos hex] at h
    cases h

/-! ## Exclusion-matching characterization -/

theorem shouldExclude_iff (fp : String) (g r : List String) :
    shouldExclude fp g r = true ↔
      ∃ pat, pat ∈ g ++ r ∧ ¬pat = "" ∧
        jsStringIncludes (normalizePathForMatch fp) pat = true := by
  unfold shouldExclude
  simp only [Bool.or_eq_true, List.any_eq_true, decide_eq_true_eq, List.mem_append]
  constructor
  · rintro (⟨pat, hmem, hp⟩ | ⟨pat, hmem, hp⟩)
    · exact ⟨pat, Or.inl hmem, hp⟩
    · exact ⟨pat, Or.inr hmem, hp⟩
  · rintro ⟨pat, hmem | hmem, hp⟩
    · exact Or.inl ⟨pat, hmem, hp⟩
    · exact Or.inr ⟨pat, hmem, hp⟩

/-- `(r?.hits?.length ?? 0) > 0` holds exactly when the branch result is
present with at least one hit. -/
theorem hitsNonempty_iff (o : Option SearchResult) :
    hitsNonempty o = true ↔ ∃ res, o = some res ∧ 0 < res.hits.length := by
  cases o with
  | none => simp [hitsNonempty]
  | some res => simp [hitsNonempty]

/-! ## Concrete model filesystems used by the witnesses -/

/-- A one-root, one-file filesystem: `/r/f.txt` containing `hello`. -/
def fsA : FSys :=
  { nodes := [(["r"], Node.dir), (["r", "f.txt"], Node.file ("hello".toList.map Char.toNat))]
    decode := fun bs => String.mk (bs.map Char.ofNat) }

/-- Configuration with the single root `a` at `/r`. -/
def rawA : RawPluginCfg := { roots := some [{ id := "a", path := ["r"] }] }

/-- The validated configuration resolveRoots produces for `rawA`. -/
def cfgA : PluginCfg :=
  { roots := [{ id := "a", path := ["r"] }], maxFileBytes := 2000000, maxHits := 200,
    followSymlinks := false, exclude := [], includeExtensions := [] }

/-- The resolved roots for `rawA` over `fsA`. -/
def rootsA : List ResolvedRoot :=
  [({ id := "a", kind := none, path := ["r"], existsOnDisk := true,
      exclude := [] } : ResolvedRoot)]

/-- A filesystem with symlinks: `/r/f.txt` a file, `/r/link` a symlink to it,
`/r/esc` a symlink escaping to `/out/secret.txt`. -/
def fsB : FSys :=
  { nodes := [(["r"], Node.dir), (["r", "f.txt"], Node.file ("hi".toList.map Char.toNat)),
              (["r", "link"], Node.symlink ["r", "f.txt"]),
              (["out"], Node.dir), (["out", "secret.txt"], Node.file []),
              (["r", "esc"], Node.symlink ["out", "secret.txt"])]
    decode := fun bs => String.mk (bs.map Char.ofNat) }

/-- Configuration with root `a` at `/r`, symlink following disabled. -/
def rawB : RawPluginCfg := { roots := some [{ id := "a", path := ["r"] }] }

/-- Configuration with root `a` at `/r`, symlink following enabled. -/
def rawBfollow : RawPluginCfg :=
  { roots := some [{ id := "a", path := ["r"] }], followSymlinks := some true }

/-- A filesystem whose only file name contains `..` as part of an ordinary
name (`/r/notes..md`). -/
def fsNotes : FSys :=
  { nodes := [(["r"], Node.dir), (["r", "notes..md"], Node.file ("x".toList.map Char.toNat))]
    decode := fun bs => String.mk (bs.map Char.ofNat) }

/-- A filesystem with a file larger than the configured byte ceiling of
`rawBig`. -/
def fsBig : FSys :=
  { nodes := [(["r"], Node.dir), (["r", "big.txt"], Node.file ("hello".toList.map Char.toNat))]
    decode := fun bs => String.mk (bs.map Char.ofNat) }

/-- Configuration with a 3-byte file ceiling. -/
def rawBig : RawPluginCfg :=
  { roots := some [{ id := "a", path := ["r"] }], maxFileBytes := some 3 }

/-- Configuration with one reachable root and one unreachable root. -/
def rawDead : RawPluginCfg :=
  { roots := some [{ id := "a", path := ["r"] }, { id := "dead", path := ["nope"] }] }

/-- A game-shaped filesystem with `requirements`, `wwise` and `unity` roots
all mentioning the event `EV`. -/
def fsGame : FSys :=
  { nodes := [(["req"], Node.dir), (["req", "a.md"], Node.file ("Need EV here".toList.map Char.toNat)),
              (["ww"], Node.dir),
              (["ww", "Events.wwu"], Node.file ("<Event Name=\"EV\"/>".toList.map Char.toNat)),
              (["un"], Node.dir),
              (["un", "Audio.cs"], Node.file ("PostEvent(\"EV\")".toList.map Char.toNat))]
    decode := fun bs => String.mk (bs.map Char.ofNat) }

/-- Configuration naming the three conventional roots. -/
def rawGame : RawPluginCfg :=
  { roots := some [{ id := "requirements", path := ["req"] },
                   { id := "wwise", path := ["ww"] },
                   { id := "unity", path := ["un"] }] }

/-! ## Claims -/

/-- C1: for every SearchHit produced by a search, the hit comes from a walked
file of its (existing, selected) root whose symlink-resolved real path is
contained in the root's resolved real path; when `followSymlinks` is false
the walker never yields a path reached through a symbolic link — the yielded
path is the nominal root plus a suffix whose resolution is the real root
plus the same suffix — and when it is true a symlinked entry is yielded only
if its realpath-resolved target is contained in the root's real path (the
containment conclusion below covers both modes). -/
theorem claim_c1 (fs : FSys) (f w : Nat) (raw : RawPluginCfg) (query : String)
    (rootIds : Option (List String)) (rg cs : Bool) (mh? : Option Int)
    (res : SearchResult)
    (hnd : KeysNodup fs) (hdd : NoDotDotKeys fs)
    (hok : searchAcrossRoots fs f w raw query rootIds rg cs mh? = Except.ok res) :
    ∀ h ∈ res.hits, ∃ cfg roots,
      resolveRoots fs f raw = Except.ok (cfg, roots) ∧
      ∃ root, root ∈ selectRoots roots rootIds ∧ root.existsOnDisk = true ∧
        h.rootId = root.id ∧
        ∃ fp, fp ∈ walkFiles fs f w (walkParamsFor cfg root) ∧
          h.file = hitFileField root.path fp ∧
          (∃ g rp, realpath fs g fp = some rp ∧
            isWithinRoot ((realpath fs f root.path).getD root.path) rp = true) ∧
          (cfg.followSymlinks = false →
            ∃ s g, fp = root.path ++ s ∧
              realpath fs g fp = some (((realpath fs f root.path).getD root.path) ++ s)) := by
  intro h hmem
  unfold searchAcrossRoots at hok
  rcases hres : resolveRoots fs f raw with e | ⟨cfg, roots⟩ <;> rw [hres] at hok
  · cases hok
  dsimp only at hok
  refine ⟨cfg, roots, rfl, ?_⟩
  have hmem' : h ∈ (searchRootsLoop fs f w cfg query rg cs
      (effectiveMaxHits cfg mh?) (selectRoots roots rootIds) initSState).hits := by
    rw [← Except.ok.inj hok] at hmem
    exact hmem
  rcases searchRootsLoop_hits_mem _ _ h hmem' with hin | ⟨root, hrootmem, hex, fp, hfp, hid, hfile⟩
  · simp [initSState] at hin
  · have hyield := walkFiles_sound hnd hdd fp hfp
    exact ⟨root, hrootmem, hex, hid, fp, hfp, hfile, hyield.1, hyield.2⟩

/-- Witness for C1: on the symlinked filesystem `fsB` with symlink following
enabled, the hit coming from `/r/link` resolves to a real path inside the
root's real path. -/
theorem claim_c1_witness :
    ∃ cfg roots,
      resolveRoots fsB 10 rawBfollow = Except.ok (cfg, roots) ∧
      ∃ root, root ∈ selectRoots roots none ∧ root.existsOnDisk = true ∧
        ({ rootId := "a", file := "link", line := 1, text := "hi" } : SearchHit).rootId = root.id ∧
        ∃ fp, fp ∈ walkFiles fsB 10 10 (walkParamsFor cfg root) ∧
          ({ rootId := "a", file := "link", line := 1, text := "hi" } : SearchHit).file =
            hitFileField root.path fp ∧
          (∃ g rp, realpath fsB g fp = some rp ∧
            isWithinRoot ((realpath fsB 10 root.path).getD root.path) rp = true) ∧
          (cfg.followSymlinks = false →
            ∃ s g, fp = root.path ++ s ∧
              realpath fsB g fp = some (((realpath fsB 10 root.path).getD root.path) ++ s)) :=
  claim_c1 fsB 10 10 rawBfollow "hi" none false false none
    { hits := [{ rootId := "a", file := "f.txt", line := 1, text := "hi" },
               { rootId := "a", file := "link", line := 1, text := "hi" }],
      scannedFiles := 2, skippedLargeFiles := 0 }
    (by decide) (by decide) rfl
    { rootId := "a", file := "link", line := 1, text := "hi" } (by decide)

/-- C2: a search never returns more hits than the effective cap (the
caller's positive override, else the configured default), and the engine
stops the moment the cap is reached: once the line scanner or the file
scanner reports the cap hit, appending further lines or further files
changes nothing, and the per-root loop returns without touching the
remaining roots. -/
theorem claim_c2 :
    (∀ (fs : FSys) (f w : Nat) (raw : RawPluginCfg) (query : String)
        (rootIds : Option (List String)) (rg cs : Bool) (mh? : Option Int)
        (res : SearchResult),
      searchAcrossRoots fs f w raw query rootIds rg cs mh? = Except.ok res →
      ∃ cfg roots, resolveRoots fs f raw = Except.ok (cfg, roots) ∧
        res.hits.length ≤ effectiveMaxHits cfg mh?) ∧
    (∀ (q : String) (rg cs : Bool) (mh : Nat) (rid fstr : String) (i : Nat)
        (l1 l2 : List String) (st : SState),
      (scanLines q rg cs mh rid fstr i l1 st).2 = true →
      scanLines q rg cs mh rid fstr i (l1 ++ l2) st =
        scanLines q rg cs mh rid fstr i l1 st) ∧
    (∀ (fs : FSys) (f mb mh : Nat) (q : String) (rg cs : Bool) (rid : String)
        (rootPath : List String) (files1 files2 : List (List String)) (st : SState),
      (scanFiles fs f mb mh q rg cs rid rootPath files1 st).2 = true →
      scanFiles fs f mb mh q rg cs rid rootPath (files1 ++ files2) st =
        scanFiles fs f mb mh q rg cs rid rootPath files1 st) ∧
    (∀ (fs : FSys) (f w : Nat) (cfg : PluginCfg) (q : String) (rg cs : Bool) (mh : Nat)
        (root : ResolvedRoot) (rest : List ResolvedRoot) (st : SState),
      root.existsOnDisk = true →
      (scanFiles fs f cfg.maxFileBytes mh q rg cs root.id root.path
        (walkFiles fs f w (walkParamsFor cfg root)) st).2 = true →
      searchRootsLoop fs f w cfg q rg cs mh (root :: rest) st =
        (scanFiles fs f cfg.maxFileBytes mh q rg cs root.id root.path
          (walkFiles fs f w (walkParamsFor cfg root)) st).1) := by
  refine ⟨?_, ?_, ?_, ?_⟩
  · intro fs f w raw query rootIds rg cs mh? res hok
    unfold searchAcrossRoots at hok
    rcases hres : resolveRoots fs f raw with e | ⟨cfg, roots⟩ <;> rw [hres] at hok
    · cases hok
    dsimp only at hok
    refine ⟨cfg, roots, rfl, ?_⟩
    rw [← Except.ok.inj hok]
    exact searchRootsLoop_hits_le _ _ (Nat.zero_le _)
  · intro q rg cs mh rid fstr i l1 l2 st h
    exact scanLines_stop_append i l1 l2 st h
  · intro fs f mb mh q rg cs rid rootPath files1 files2 st h
    exact scanFiles_stop_append files1 files2 st h
  · intro fs f w cfg q rg cs mh root rest st hex hstop
    exact searchRootsLoop_stop hex hstop

/-- Witness for C2: the hit-cap bound instantiated on the concrete model
`fsA`. -/
theorem claim_c2_witness :
    ∃ cfg roots, resolveRoots fsA 10 rawA = Except.ok (cfg, roots) ∧
      ({ hits := [{ rootId := "a", file := "f.txt", line := 1, text := "hello" }],
         scannedFiles := 1, skippedLargeFiles := 0 } : SearchResult).hits.length ≤
        effectiveMaxHits cfg none :=
  claim_c2.1 fsA 10 10 rawA "hello" none false false none
    { hits := [{ rootId := "a", file := "f.txt", line := 1, text := "hello" }],
      scannedFiles := 1, skippedLargeFiles := 0 } rfl

/-- C3 (amended): the read operation succeeds exactly when the rootId names
a configured root that exists on disk, the trimmed relPath is non-empty, not
absolute, and free of the two-character substring `..` (a stronger condition
than "no parent-traversal segment"), the resolved path stays within the root
both nominally and after symlink resolution, the symlink-policy check passes
(when following is disabled the resolved real path must equal the literal
join of the real root and the relative path), the path is not excluded, and
the target resolves to a regular file; and on success it returns the file's
decoded bytes (truncated at the effective byte bound). -/
theorem claim_c3 (fs : FSys) (f : Nat) (raw : RawPluginCfg) (rootId relPath : String)
    (mb? : Option Int) :
    ((readFileFromRoot fs f raw rootId relPath mb?).isOk = true ↔
      ReadOkConds fs f raw rootId relPath) ∧
    (∀ out, readFileFromRoot fs f raw rootId relPath mb? = Except.ok out →
      ∃ cfg roots root content,
        resolveRoots fs f raw = Except.ok (cfg, roots) ∧
        roots.find? (fun r => r.id == rootId) = some root ∧
        statNode fs f (normJoin root.path (jsSplit (jsTrim relPath) '/')) =
          some (Node.file content) ∧
        out = { rootId := root.id,
                absPath := normJoin root.path (jsSplit (jsTrim relPath) '/'),
                relPath := jsTrim relPath,
                truncated := decide (content.length > effectiveReadBytes cfg mb?),
                text := fs.decode (if decide (content.length > effectiveReadBytes cfg mb?) = true
                  then content.take (effectiveReadBytes cfg mb?) else content) }) :=
  ⟨⟨fun h => readFileFromRoot_isOk_imp h, fun h => readFileFromRoot_isOk_of_conds mb? h⟩,
   fun _ h => readFileFromRoot_ok_val h⟩

/-- Counterexample for C3 as stated: two inputs where every failure
condition listed by the claim is false yet the read fails — an ordinary
file name containing `..` (`notes..md`, no parent-traversal segment), and
an in-root symlink under `followSymlinks=false` (rejected by the
symlink-policy check, which the claim's list omits). -/
theorem claim_c3_counterexample :
    ((readFileFromRoot fsNotes 10 rawA "a" "notes..md" none).isOk = false ∧
      specHasTraversalSegment (jsTrim "notes..md") = false ∧
      ¬jsTrim "notes..md" = "" ∧
      jsStartsWith (jsTrim "notes..md") "/" = false ∧
      isWithinRoot ["r"] (normJoin ["r"] (jsSplit (jsTrim "notes..md") '/')) = true ∧
      realpath fsNotes 10 (normJoin ["r"] (jsSplit (jsTrim "notes..md") '/')) =
        some ["r", "notes..md"] ∧
      shouldExclude (renderPath ["r", "notes..md"]) [] [] = false ∧
      statNode fsNotes 10 ["r", "notes..md"] =
        some (Node.file ("x".toList.map Char.toNat))) ∧
    ((readFileFromRoot fsB 10 rawB "a" "link" none).isOk = false ∧
      readFileFromRoot fsB 10 rawB "a" "link" none =
        Except.error "Symlinks are not allowed by policy" ∧
      jsStringIncludes (jsTrim "link") ".." = false ∧
      isWithinRoot ["r"] (normJoin ["r"] (jsSplit (jsTrim "link") '/')) = true ∧
      realpath fsB 10 ["r", "link"] = some ["r", "f.txt"] ∧
      isWithinRoot ["r"] ["r", "f.txt"] = true ∧
      statNode fsB 10 ["r", "link"] = some (Node.file ("hi".toList.map Char.toNat))) := by
  exact ⟨⟨rfl, rfl, by decide, rfl, rfl, rfl, rfl, rfl⟩,
         ⟨rfl, rfl, rfl, rfl, rfl, rfl, rfl⟩⟩

/-- Witness for C3: the value characterization applied to a concrete
successful read on `fsA`. -/
theorem claim_c3_witness :
    ∃ cfg roots root content,
      resolveRoots fsA 10 rawA = Except.ok (cfg, roots) ∧
      roots.find? (fun r => r.id == "a") = some root ∧
      statNode fsA 10 (normJoin root.path (jsSplit (jsTrim "f.txt") '/')) =
        some (Node.file content) ∧
      ({ rootId := "a", absPath := ["r", "f.txt"], relPath := "f.txt", truncated := false,
         text := "hello" } : ReadResult) =
        { rootId := root.id,
          absPath := normJoin root.path (jsSplit (jsTrim "f.txt") '/'),
          relPath := jsTrim "f.txt",
          truncated := decide (content.length > effectiveReadBytes cfg none),
          text := fsA.decode (if decide (content.length > effectiveReadBytes cfg none) = true
            then content.take (effectiveReadBytes cfg none) else content) } :=
  (claim_c3 fsA 10 rawA "a" "f.txt" none).2 _ rfl

/-- `effectiveReadBytes` collapses when the caller passes the configured
ceiling back in. -/
theorem effectiveReadBytes_self (cfg : PluginCfg) :
    effectiveReadBytes cfg (some (cfg.maxFileBytes : Int)) = cfg.maxFileBytes := by
  by_cases h : (cfg.maxFileBytes : Int) > 0
  · simp [effectiveReadBytes, h]
  · simp [effectiveReadBytes, h]

/-- C4: a regular file larger than the byte ceiling is counted in
`skippedLargeFiles` by the search scanner and contributes no hits, while a
direct read of the same file with that ceiling as `maxBytes` succeeds with
`truncated = true` and text equal to the decoding of exactly the first
`maxBytes` bytes. -/
theorem claim_c4 :
    (∀ (fs : FSys) (f mb mh : Nat) (q : String) (rg cs : Bool) (rid : String)
        (rootPath fp : List String) (st : SState) (content : List Nat),
      statNode fs f fp = some (Node.file content) → content.length > mb →
      st.hits.length < mh →
      scanOneFile fs f mb mh q rg cs rid rootPath fp st =
        ((⟨st.hits, st.scannedFiles + 1, st.skippedLargeFiles + 1,
          st.lastIndex⟩ : SState), false)) ∧
    (∀ (fs : FSys) (f : Nat) (raw : RawPluginCfg) (rootId relPath : String)
        (out : ReadResult) (cfg : PluginCfg) (roots : List ResolvedRoot)
        (root : ResolvedRoot) (content : List Nat),
      resolveRoots fs f raw = Except.ok (cfg, roots) →
      roots.find? (fun r => r.id == rootId) = some root →
      statNode fs f (normJoin root.path (jsSplit (jsTrim relPath) '/')) =
        some (Node.file content) →
      content.length > cfg.maxFileBytes →
      readFileFromRoot fs f raw rootId relPath (some (cfg.maxFileBytes : Int)) =
        Except.ok out →
      out.truncated = true ∧ out.text = fs.decode (content.take cfg.maxFileBytes)) := by
  constructor
  · intro fs f mb mh q rg cs rid rootPath fp st content hstat hbig hcap
    unfold scanOneFile
    rw [if_neg (by omega)]
    have hrd : readTextFileLimited fs f fp mb = none := by
      unfold readTextFileLimited
      rw [hstat]
      dsimp only
      rw [if_pos hbig]
    rw [hrd]
  · intro fs f raw rootId relPath out cfg roots root content hres hfind hstat hbig hok
    obtain ⟨cfg', roots', root', content', hres', hfind', hstat', hout⟩ :=
      readFileFromRoot_ok_val hok
    rw [hres] at hres'
    obtain ⟨hcfg, hroots⟩ := Prod.mk.injEq .. ▸ Except.ok.inj hres'
    subst hcfg
    subst hroots
    rw [hfind] at hfind'
    have hroot : root = root' := Option.some.inj hfind'
    subst hroot
    rw [hstat] at hstat'
    have hcontent : content = content' := by
      have := Option.some.inj hstat'
      cases this
      rfl
    subst hcontent
    rw [hout]
    rw [effectiveReadBytes_self] at *
    constructor
    · simp [effectiveReadBytes_self, hbig]
    · simp [effectiveReadBytes_self, hbig]

/-- Witness for C4: on `fsBig` (5-byte file, 3-byte ceiling) the scanner
skips the file and the direct read truncates to the first 3 bytes. -/
theorem claim_c4_witness :
    (statNode fsBig 10 ["r", "big.txt"] =
        some (Node.file ("hello".toList.map Char.toNat)) ∧
      scanOneFile fsBig 10 3 200 "hello" false false "a" ["r"] ["r", "big.txt"] initSState =
        ((⟨[], 1, 1, 0⟩ : SState), false)) ∧
    ((⟨"a", ["r", "big.txt"], "big.txt", true, "hel"⟩ : ReadResult).truncated = true ∧
      (⟨"a", ["r", "big.txt"], "big.txt", true, "hel"⟩ : ReadResult).text =
        fsBig.decode (("hello".toList.map Char.toNat).take 3)) := by
  constructor
  · exact ⟨rfl, claim_c4.1 fsBig 10 3 200 "hello" false false "a" ["r"] ["r", "big.txt"]
      initSState ("hello".toList.map Char.toNat) rfl (by decide) (by decide)⟩
  · exact claim_c4.2 fsBig 10 rawBig "a" "big.txt"
      (⟨"a", ["r", "big.txt"], "big.txt", true, "hel"⟩ : ReadResult)
      (⟨[{ id := "a", path := ["r"] }], 3, 200, false, [], []⟩ : PluginCfg)
      [(⟨"a", none, ["r"], true, []⟩ : ResolvedRoot)]
      (⟨"a", none, ["r"], true, []⟩ : ResolvedRoot)
      ("hello".toList.map Char.toNat) rfl rfl rfl (by decide) rfl

/-- C10: the read operation rejects every relPath whose trimmed value
contains the two-character sequence `..` anywhere — including as part of an
ordinary file name — so such a file can never be read; under a known,
existing root the rejection is precisely the relPath validation error. -/
theorem claim_c10 (fs : FSys) (f : Nat) (raw : RawPluginCfg) (rootId relPath : String)
    (mb? : Option Int) (hdots : jsStringIncludes (jsTrim relPath) ".." = true) :
    (readFileFromRoot fs f raw rootId relPath mb?).isOk = false ∧
    (∀ cfg roots root, resolveRoots fs f raw = Except.ok (cfg, roots) →
      roots.find? (fun r => r.id == rootId) = some root →
      root.existsOnDisk = true →
      readFileFromRoot fs f raw rootId relPath mb? =
        Except.error "relPath must be a safe, relative path (no absolute paths / ..)") := by
  constructor
  · cases hok : (readFileFromRoot fs f raw rootId relPath mb?).isOk with
    | false => rfl
    | true =>
      obtain ⟨cfg, roots, root, _, _, _, _, _, hfree, _⟩ := readFileFromRoot_isOk_imp hok
      rw [hdots] at hfree
      cases hfree
  · intro cfg roots root hres hfind hex
    unfold readFileFromRoot
    rw [hres]
    dsimp only
    rw [hfind]
    dsimp only
    rw [if_neg (not_not_intro hex)]
    rw [if_pos (by simp [hdots])]

/-- Witness for C10: the concrete file `/r/notes..md` exists under the root
yet can never be read. -/
theorem claim_c10_witness :
    jsStringIncludes (jsTrim "notes..md") ".." = true ∧
    (readFileFromRoot fsNotes 10 rawA "a" "notes..md" none).isOk = false ∧
    readFileFromRoot fsNotes 10 rawA "a" "notes..md" none =
      Except.error "relPath must be a safe, relative path (no absolute paths / ..)" := by
  refine ⟨by decide, (claim_c10 fsNotes 10 rawA "a" "notes..md" none (by decide)).1, ?_⟩
  exact (claim_c10 fsNotes 10 rawA "a" "notes..md" none (by decide)).2
    cfgA [(⟨"a", none, ["r"], true, []⟩ : ResolvedRoot)]
    (⟨"a", none, ["r"], true, []⟩ : ResolvedRoot) rfl rfl rfl

/-- C5 (code evaluation at the failing input): with `regex=true`, the
`g`-flagged regex that `makeMatcher` compiles carries its `lastIndex` across
`test` calls, so scanning the file `"abc\nab"` for the pattern `b` yields a
hit only for line 1 even though line 2 also contains `b` — the same line
matches when tested with a fresh `lastIndex`.  Matching is therefore not a
pure function of the line, contradicting the claim; every line does contain
the query as a substring. -/
theorem claim_c5 :
    (scanLines "b" true true 200 "r" "f" 0 (splitCRLF "abc\nab") initSState).1.hits =
      [(⟨"r", "f", 1, "abc"⟩ : SearchHit)] ∧
    splitCRLF "abc\nab" = ["abc", "ab"] ∧
    jsStringIncludes "abc" "b" = true ∧
    jsStringIncludes "ab" "b" = true ∧
    matcherStep "b" true true 0 "abc" = (true, 2) ∧
    matcherStep "b" true true 2 "ab" = (false, 0) ∧
    matcherStep "b" true true 0 "ab" = (true, 2) :=
  ⟨rfl, rfl, rfl, rfl, rfl, rfl, rfl⟩

/-- C6 (amended): `shouldExclude` is true exactly when some NON-EMPTY
pattern among the global and root-specific patterns is a literal substring
of the path after each DOUBLE backslash has been replaced by a forward
slash (single backslashes are left unchanged; empty patterns are skipped);
the result is order-independent and no glob or regex interpretation is
applied. -/
theorem claim_c6 (fp : String) (g r : List String) :
    (shouldExclude fp g r = true ↔
      ∃ pat, pat ∈ g ++ r ∧ ¬pat = "" ∧
        jsStringIncludes (normalizePathForMatch fp) pat = true) ∧
    (∀ g2 r2, (g ++ r).Perm (g2 ++ r2) →
      shouldExclude fp g r = shouldExclude fp g2 r2) := by
  constructor
  · exact shouldExclude_iff fp g r
  · intro g2 r2 hperm
    have h1 := shouldExclude_iff fp g r
    have h2 := shouldExclude_iff fp g2 r2
    cases hb : shouldExclude fp g2 r2 with
    | true =>
      obtain ⟨pat, hmem, hp⟩ := h2.mp hb
      exact h1.mpr ⟨pat, hperm.mem_iff.mpr hmem, hp⟩
    | false =>
      cases hbl : shouldExclude fp g r with
      | false => rfl
      | true =>
        obtain ⟨pat, hmem, hp⟩ := h1.mp hbl
        rw [← hb]
        exact (h2.mpr ⟨pat, hperm.mem_iff.mp hmem, hp⟩).symm ▸ rfl

/-- Counterexample for C6 as stated: a single backslash is NOT normalized
(the source replaces only double backslashes), and an empty pattern is NOT
treated as a match (the source skips falsy patterns), while the claim's
reading of the spec predicts a match in both cases. -/
theorem claim_c6_counterexample :
    (shouldExclude "a\\b" [] ["a/b"] = false ∧ specShouldExclude "a\\b" [] ["a/b"] = true ∧
      normalizePathForMatch "a\\b" = "a\\b") ∧
    (shouldExclude "x" [""] [] = false ∧ specShouldExclude "x" [""] [] = true) ∧
    shouldExclude "a\\\\b" [] ["a/b"] = true :=
  ⟨⟨rfl, rfl, rfl⟩, ⟨rfl, rfl⟩, rfl⟩

/-- Witness for C6: order-independence instantiated on concrete pattern
lists. -/
theorem claim_c6_witness :
    shouldExclude "/r/Library/x.txt" ["/Library/"] ["/Temp/"] =
      shouldExclude "/r/Library/x.txt" ["/Temp/"] ["/Library/"] :=
  (claim_c6 "/r/Library/x.txt" ["/Library/"] ["/Temp/"]).2 ["/Temp/"] ["/Library/"]
    (by decide)

/-- C7: for every event name that is non-blank after trimming, `checkEvent`
returns (never raises); the unscoped fallback search result is recorded
unconditionally; a sub-search that raised becomes an absent branch without
failing the operation; and each derived boolean is true exactly when its
scoped search produced at least one hit. -/
theorem claim_c7 (fs : FSys) (f w : Nat) (raw : RawPluginCfg) (eventName : String)
    (hne : ¬jsTrim eventName = "") :
    ∃ out, checkEvent fs f w raw eventName = Except.ok out ∧
      out.fallback =
        (searchAcrossRoots fs f w raw eventName none false false none).toOption ∧
      out.requirements =
        (searchAcrossRoots fs f w raw eventName (some ["requirements"])
          false false none).toOption ∧
      out.wwiseNameAttr =
        (searchAcrossRoots fs f w raw ("Name=\"" ++ eventName ++ "\"") (some ["wwise"])
          false false none).toOption ∧
      out.unityRefs =
        (searchAcrossRoots fs f w raw eventName (some ["unity"]) false false none).toOption ∧
      (∀ msg, searchAcrossRoots fs f w raw eventName (some ["requirements"])
          false false none = Except.error msg → out.requirements = none) ∧
      (out.requirementsMentioned = true ↔
        ∃ res, out.requirements = some res ∧ 0 < res.hits.length) ∧
      (out.wwiseProbablyDefined = true ↔
        ∃ res, out.wwiseNameAttr = some res ∧ 0 < res.hits.length) ∧
      (out.unityReferenced = true ↔
        ∃ res, out.unityRefs = some res ∧ 0 < res.hits.length) := by
  unfold checkEvent
  rw [if_neg hne]
  refine ⟨_, rfl, rfl, rfl, rfl, rfl, ?_, ?_, ?_, ?_⟩
  · intro msg hmsg
    show (searchAcrossRoots fs f w raw eventName (some ["requirements"])
      false false none).toOption = none
    rw [hmsg]
    rfl
  · exact hitsNonempty_iff _
  · exact hitsNonempty_iff _
  · exact hitsNonempty_iff _

/-- Witness for C7: the heuristic applied to the game-shaped model where
all three conventional roots mention the event `EV`. -/
theorem claim_c7_witness :
    ∃ out, checkEvent fsGame 10 10 rawGame "EV" = Except.ok out ∧
      out.fallback =
        (searchAcrossRoots fsGame 10 10 rawGame "EV" none false false none).toOption ∧
      out.requirements =
        (searchAcrossRoots fsGame 10 10 rawGame "EV" (some ["requirements"])
          false false none).toOption ∧
      out.wwiseNameAttr =
        (searchAcrossRoots fsGame 10 10 rawGame ("Name=\"" ++ "EV" ++ "\"") (some ["wwise"])
          false false none).toOption ∧
      out.unityRefs =
        (searchAcrossRoots fsGame 10 10 rawGame "EV" (some ["unity"])
          false false none).toOption ∧
      (∀ msg, searchAcrossRoots fsGame 10 10 rawGame "EV" (some ["requirements"])
          false false none = Except.error msg → out.requirements = none) ∧
      (out.requirementsMentioned = true ↔
        ∃ res, out.requirements = some res ∧ 0 < res.hits.length) ∧
      (out.wwiseProbablyDefined = true ↔
        ∃ res, out.wwiseNameAttr = some res ∧ 0 < res.hits.length) ∧
      (out.unityReferenced = true ↔
        ∃ res, out.unityRefs = some res ∧ 0 < res.hits.length) :=
  claim_c7 fsGame 10 10 rawGame "EV" (by decide)

/-- C8: root resolution raises a configuration error exactly when the
configured root list is empty or absent; a root whose path is unreachable is
reported with `existsOnDisk = false` (resolution never raises for it), and
the search loop skips such a root, contributing no hits and no scanned
files. -/
theorem claim_c8 :
    (∀ (fs : FSys) (f : Nat) (raw : RawPluginCfg),
      (resolveRoots fs f raw).isOk = true ↔ ¬raw.roots.getD [] = []) ∧
    (∀ (fs : FSys) (f : Nat) (raw : RawPluginCfg) (cfg : PluginCfg)
        (roots : List ResolvedRoot),
      resolveRoots fs f raw = Except.ok (cfg, roots) →
      ∀ rr ∈ roots, rr.existsOnDisk = pathExistsFS fs f rr.path) ∧
    (∀ (fs : FSys) (f w : Nat) (cfg : PluginCfg) (q : String) (rg cs : Bool) (mh : Nat)
        (root : ResolvedRoot) (rest : List ResolvedRoot) (st : SState),
      root.existsOnDisk = false →
      searchRootsLoop fs f w cfg q rg cs mh (root :: rest) st =
        searchRootsLoop fs f w cfg q rg cs mh rest st) ∧
    (∀ (fs : FSys) (f w : Nat) (cfg : PluginCfg) (q : String) (rg cs : Bool) (mh : Nat)
        (roots : List ResolvedRoot) (st : SState),
      (∀ r ∈ roots, r.existsOnDisk = false) →
      searchRootsLoop fs f w cfg q rg cs mh roots st = st) := by
  refine ⟨?_, ?_, ?_, ?_⟩
  · intro fs f raw
    unfold resolveRoots getPluginCfg
    by_cases hempty : (raw.roots.getD []).isEmpty = true
    · rw [if_pos hempty]
      simp only [Except.isOk, Except.toBool]
      constructor
      · intro h; cases h
      · intro h
        exact absurd (List.isEmpty_iff.mp hempty) h
    · rw [if_neg hempty]
      simp only [Except.isOk, Except.toBool]
      constructor
      · intro _
        intro hc
        exact hempty (List.isEmpty_iff.mpr hc)
      · intro _; trivial
  · intro fs f raw cfg roots hres rr hmem
    unfold resolveRoots at hres
    rcases hcfg : getPluginCfg raw with e | cfg' <;> rw [hcfg] at hres
    · cases hres
    dsimp only at hres
    obtain ⟨hc, hr⟩ := Prod.mk.injEq .. ▸ Except.ok.inj hres
    rw [← hr] at hmem
    obtain ⟨r0, _, hrr⟩ := List.mem_map.mp hmem
    rw [← hrr]
  · intro fs f w cfg q rg cs mh root rest st hex
    exact searchRootsLoop_skip_dead hex
  · intro fs f w cfg q rg cs mh roots st hall
    exact searchRootsLoop_all_dead roots st hall

/-- Witness for C8: the mixed configuration `rawDead` (one reachable root,
one unreachable) resolves without raising, and a search over only the dead
root leaves the state untouched. -/
theorem claim_c8_witness :
    ((resolveRoots fsA 10 rawDead).isOk = true ↔ ¬rawDead.roots.getD [] = []) ∧
    searchRootsLoop fsA 10 10 cfgA "q" false false 200
      [(⟨"dead", none, ["nope"], false, []⟩ : ResolvedRoot)] initSState = initSState :=
  ⟨claim_c8.1 fsA 10 rawDead,
   claim_c8.2.2.2 fsA 10 10 cfgA "q" false false 200
     [(⟨"dead", none, ["nope"], false, []⟩ : ResolvedRoot)] initSState (by decide)⟩

/-- C9 (amended): a NON-EMPTY `rootIds` list restricts the search to exactly
the configured roots whose id appears in it (unknown ids are silently
dropped, and a non-empty list of only unknown ids yields zero hits and zero
scanned files); an EMPTY `rootIds` list is treated like an absent one — the
search runs over all configured roots. -/
theorem claim_c9 (fs : FSys) (f w : Nat) (raw : RawPluginCfg) (q : String)
    (rg cs : Bool) (mh? : Option Int) (cfg : PluginCfg) (roots : List ResolvedRoot)
    (hres : resolveRoots fs f raw = Except.ok (cfg, roots)) :
    (∀ ids, ¬ids = [] →
      selectRoots roots (some ids) = roots.filter (fun r => ids.contains r.id)) ∧
    (searchAcrossRoots fs f w raw q (some []) rg cs mh? =
      searchAcrossRoots fs f w raw q none rg cs mh?) ∧
    (∀ ids, ¬ids = [] → (∀ r ∈ roots, ids.contains r.id = false) →
      searchAcrossRoots fs f w raw q (some ids) rg cs mh? =
        Except.ok { hits := [], scannedFiles := 0, skippedLargeFiles := 0 }) := by
  refine ⟨?_, ?_, ?_⟩
  · intro ids hne
    unfold selectRoots
    dsimp only
    rw [if_pos (List.length_pos.mpr hne)]
  · unfold searchAcrossRoots
    rw [hres]
    rfl
  · intro ids hne hunknown
    unfold searchAcrossRoots
    rw [hres]
    dsimp only
    have hsel : selectRoots roots (some ids) = [] := by
      unfold selectRoots
      dsimp only
      rw [if_pos (List.length_pos.mpr hne)]
      rw [List.filter_eq_nil_iff]
      intro r hr
      rw [hunknown r hr]
      exact Bool.false_ne_true
    rw [hsel]
    rfl

/-- Counterexample for C9 as stated: with the configured root `a` and the
explicitly GIVEN rootIds list `[]` — which contains no known id, so the
claim predicts zero hits — the search runs over all roots and returns one
hit. -/
theorem claim_c9_counterexample :
    searchAcrossRoots fsA 10 10 rawA "hello" (some ([] : List String)) false false none =
      Except.ok { hits := [(⟨"a", "f.txt", 1, "hello"⟩ : SearchHit)], scannedFiles := 1,
                  skippedLargeFiles := 0 } ∧
    ([] : List String).contains "a" = false :=
  ⟨rfl, rfl⟩

/-- Witness for C9: on the concrete model, an empty rootIds list behaves as
an absent one, and a non-empty list of unknown ids yields the empty result. -/
theorem claim_c9_witness :
    (searchAcrossRoots fsA 10 10 rawA "hello" (some []) false false none =
      searchAcrossRoots fsA 10 10 rawA "hello" none false false none) ∧
    searchAcrossRoots fsA 10 10 rawA "hello" (some ["zzz"]) false false none =
      Except.ok { hits := [], scannedFiles := 0, skippedLargeFiles := 0 } :=
  ⟨(claim_c9 fsA 10 10 rawA "hello" false false none cfgA rootsA rfl).2.1,
   (claim_c9 fsA 10 10 rawA "hello" false false none cfgA rootsA rfl).2.2 ["zzz"]
     (by decide) (by decide)⟩
